import Mathlib

/-!
ArtemisSays: the game state machine of `game.cpp`.

A shallow embedding of the controller in `src/game.cpp` and the properties of
its transitions.

Modelling conventions.

* The controller object is a record of its four data members together with the
  log of the calls it has made to its collaborators (display, audio, random
  source, platform power control).  Every member function is a function from
  record to record; a call to a collaborator appends one event to the log.
* `sequence` is a C array whose declared length lives in `game.h`.  It is
  modelled as a map from indices to directions, so that a store at index `i`
  is a store at cell `i` whatever `i` is; the declared length appears in the
  theorems as the parameter `maxSequenceLength`, and an index at or above it is
  an index outside the array.
* `level`, `move` and `position` are natural numbers: they start at `0` and
  are only ever incremented by one, below the bounds the theorems assume.
* The value `(DIRECTIONS) random(1, 5)` is an argument `draw` of the functions
  that reach `setRandomDirection`; the call itself is logged.
-/

/-- Modelled from the spec: the enum `DIRECTIONS` of `game.h` (not among the
sources); the four labels are the ones `displayDirection` switches on. -/
inductive ArtemisSays.DIRECTIONS where
  | up
  | right
  | down
  | left
  deriving DecidableEq

/-- Modelled from the spec: the enum `GAME_STATES` of `game.h` (not among the
sources); the three labels are the ones `game.cpp` assigns. -/
inductive ArtemisSays.GAME_STATES where
  | START_GAME
  | END_GAME
  | COMPLETE
  deriving DecidableEq

/-- Board power pins switched off by `endGame` on the SparkFun Edge 2. -/
inductive ArtemisSays.VddPin where
  | ACCEL_VDD
  | MIC_VDD
  | CAMERA_VDD
  deriving DecidableEq

/-- Arguments of the two `am_hal_stimer_config` calls in `endGame`. -/
inductive ArtemisSays.StimerCfg where
  | CLEAR_FREEZE
  | XTAL_32KHZ
  deriving DecidableEq

/-- One call from the controller to a collaborator. -/
inductive ArtemisSays.Event where
  | drawUp
  | drawRight
  | drawDown
  | drawLeft
  | tone (pin frequency duration : Nat)
  | delay (ms : Nat)
  | clearDisplay
  | displayReplayScreen
  | displayEndGame
  | displayComputerTurn (level : Nat)
  | displayYourTurn
  | random (lo hi : Nat)
  | pinModeOutput (pin : ArtemisSays.VddPin)
  | digitalWriteLow (pin : ArtemisSays.VddPin)
  | power_adc_disable
  | am_hal_pwrctrl_low_power_init
  | am_hal_clkgen_control_xtal_stop
  | am_hal_rtc_osc_disable
  | am_hal_gpio_pinconfig_disable (pin : Nat)
  | am_hal_stimer_config (cfg : ArtemisSays.StimerCfg)
  | am_hal_pwrctrl_memory_enable_flash_512k
  | sramPowerDownAllButLower32k
  | am_hal_sysctrl_sleep_deep
  deriving DecidableEq

/-- The controller object: its data members and the log of collaborator calls. -/
structure ArtemisSays where
  state : ArtemisSays.GAME_STATES
  level : Nat
  move : Nat
  sequence : Nat → ArtemisSays.DIRECTIONS
  calls : List ArtemisSays.Event

namespace ArtemisSays

open DIRECTIONS GAME_STATES

def AUDIO_PIN : Nat := 18
def UP_FREQ : Nat := 1030
def RIGHT_FREQ : Nat := 588
def DOWN_FREQ : Nat := 1450
def LEFT_FREQ : Nat := 1140
def DIRECTION_DELAY : Nat := 350

/-- A call to a collaborator: the event is appended to the log. -/
def emit (e : Event) (g : ArtemisSays) : ArtemisSays :=
  { g with calls := g.calls ++ [e] }

def getState (g : ArtemisSays) : GAME_STATES × ArtemisSays :=
  (g.state, g)

def displayDirection (direction : DIRECTIONS) (g : ArtemisSays) : ArtemisSays :=
  let g :=
    match direction with
    | right => emit (.tone AUDIO_PIN RIGHT_FREQ DIRECTION_DELAY) (emit .drawRight g)
    | left => emit (.tone AUDIO_PIN LEFT_FREQ DIRECTION_DELAY) (emit .drawLeft g)
    | down => emit (.tone AUDIO_PIN DOWN_FREQ DIRECTION_DELAY) (emit .drawDown g)
    | up => emit (.tone AUDIO_PIN UP_FREQ DIRECTION_DELAY) (emit .drawUp g)
  emit (.delay DIRECTION_DELAY) g

def setRandomDirection (draw : DIRECTIONS) (g : ArtemisSays) : ArtemisSays :=
  let g := emit (.random 1 5) g
  let direction := draw
  let g := { g with sequence := Function.update g.sequence g.level direction }
  { g with level := g.level + 1 }

/-- The `while (position < level)` loop of `displaySequence`. -/
def displaySequenceLoop (g : ArtemisSays) (position : Nat) : ArtemisSays :=
  if position < g.level then
    let direction := g.sequence position
    let g1 := displayDirection direction g
    displaySequenceLoop g1 (position + 1)
  else
    g
termination_by g.level - position
decreasing_by
  have hlevel : (displayDirection (g.sequence position) g).level = g.level := by
    cases g.sequence position <;> rfl
  rw [hlevel]
  omega

def displaySequence (g : ArtemisSays) : ArtemisSays :=
  let position := 0
  let g := emit (.displayComputerTurn g.level) g
  let g := displaySequenceLoop g position
  emit .displayYourTurn g

def nextLevel (draw : DIRECTIONS) (g : ArtemisSays) : ArtemisSays :=
  let g := setRandomDirection draw g
  let g := displaySequence g
  let g := { g with move := 0 }
  { g with state := START_GAME }

def checkResponse (direction : DIRECTIONS) (draw : DIRECTIONS) (g : ArtemisSays) :
    ArtemisSays :=
  let g := displayDirection direction g
  if direction = g.sequence g.move then
    let g := { g with move := g.move + 1 }
    let g := emit .clearDisplay g
    if g.move = g.level then
      nextLevel draw g
    else
      g
  else
    let g := emit .displayReplayScreen g
    { g with state := END_GAME }

def restartGame (draw : DIRECTIONS) (g : ArtemisSays) : ArtemisSays :=
  let g := { g with level := 0 }
  nextLevel draw g

/-- How a call that may fail to come back ends: it returns to its caller, or
it stays inside the call for ever; either way with the controller as it then is. -/
inductive Outcome where
  | returned (g : ArtemisSays)
  | blocked (g : ArtemisSays)

/-- The controller at the end of a call, returned or not. -/
def Outcome.controller : Outcome → ArtemisSays
  | .returned g => g
  | .blocked g => g

/-- Whether the call came back to its caller. -/
def Outcome.isReturned : Outcome → Bool
  | .returned _ => true
  | .blocked _ => false

/-- `endGame`.  `sfeEdge2` is the compile-time condition
`defined(ARDUINO_SFE_EDGE2)`, `memStatus` the value returned by
`am_hal_pwrctrl_memory_enable` (non-zero enters `while (1);`), and `wakes`
tells whether `am_hal_sysctrl_sleep` ever returns. -/
def endGame (sfeEdge2 : Bool) (memStatus : Nat) (wakes : Bool) (g : ArtemisSays) :
    Outcome :=
  let g := { g with state := COMPLETE }
  let g := emit .displayEndGame g
  let g :=
    if sfeEdge2 then
      emit (.digitalWriteLow .CAMERA_VDD) (emit (.pinModeOutput .CAMERA_VDD)
        (emit (.digitalWriteLow .MIC_VDD) (emit (.pinModeOutput .MIC_VDD)
          (emit (.digitalWriteLow .ACCEL_VDD) (emit (.pinModeOutput .ACCEL_VDD) g)))))
    else
      g
  let g := emit .power_adc_disable g
  let g := emit .am_hal_pwrctrl_low_power_init g
  let g := emit .am_hal_clkgen_control_xtal_stop g
  let g := emit .am_hal_rtc_osc_disable g
  let g := emit (.am_hal_gpio_pinconfig_disable 20) g
  let g := emit (.am_hal_gpio_pinconfig_disable 21) g
  let g := emit (.am_hal_gpio_pinconfig_disable 48) g
  let g := emit (.am_hal_gpio_pinconfig_disable 49) g
  let g := emit (.am_hal_stimer_config .CLEAR_FREEZE) g
  let g := emit (.am_hal_stimer_config .XTAL_32KHZ) g
  let g := emit .am_hal_pwrctrl_memory_enable_flash_512k g
  if memStatus ≠ 0 then
    .blocked g
  else
    let g := emit .sramPowerDownAllButLower32k g
    let g := emit .am_hal_sysctrl_sleep_deep g
    if wakes then .returned g else .blocked g

/-- One call of a public member function, with what its collaborators answer. -/
inductive Op where
  | checkResponse (direction draw : DIRECTIONS)
  | nextLevel (draw : DIRECTIONS)
  | restartGame (draw : DIRECTIONS)
  | endGame (sfeEdge2 : Bool) (memStatus : Nat) (wakes : Bool)

/-- Performing one call. -/
def step : Op → ArtemisSays → Outcome
  | .checkResponse direction draw, g => .returned (checkResponse direction draw g)
  | .nextLevel draw, g => .returned (nextLevel draw g)
  | .restartGame draw, g => .returned (restartGame draw g)
  | .endGame sfeEdge2 memStatus wakes, g => endGame sfeEdge2 memStatus wakes g

/-- Performing a finite sequence of calls, one after the other; a call that
does not return is the last one performed. -/
def run : List Op → ArtemisSays → Outcome
  | [], g => .returned g
  | op :: ops, g =>
    match step op g with
    | .returned g1 => run ops g1
    | .blocked g1 => .blocked g1

/-- The precondition of `setRandomDirection`, `level < maxSequenceLength`, at
the call `op` makes to it from `g`; `true` when `op` does not reach it.
`restartGame` reaches it at level 0. -/
def hasRoom (maxSequenceLength : Nat) : Op → ArtemisSays → Bool
  | .checkResponse direction _, g =>
    if direction = g.sequence g.move ∧ g.move + 1 = g.level then
      decide (g.level < maxSequenceLength)
    else
      true
  | .nextLevel _, g => decide (g.level < maxSequenceLength)
  | .restartGame _, _ => decide (0 < maxSequenceLength)
  | .endGame _ _ _, _ => true

/-- The precondition of `setRandomDirection` holds at every call of the run. -/
def runHasRoom (maxSequenceLength : Nat) : List Op → ArtemisSays → Bool
  | [], _ => true
  | op :: ops, g =>
    hasRoom maxSequenceLength op g &&
      match step op g with
      | .returned g1 => runHasRoom maxSequenceLength ops g1
      | .blocked _ => true

/-- The cue of one direction, as `displayDirection` presents it. -/
def cue (direction : DIRECTIONS) : List Event :=
  match direction with
  | right => [.drawRight, .tone AUDIO_PIN RIGHT_FREQ DIRECTION_DELAY, .delay DIRECTION_DELAY]
  | left => [.drawLeft, .tone AUDIO_PIN LEFT_FREQ DIRECTION_DELAY, .delay DIRECTION_DELAY]
  | down => [.drawDown, .tone AUDIO_PIN DOWN_FREQ DIRECTION_DELAY, .delay DIRECTION_DELAY]
  | up => [.drawUp, .tone AUDIO_PIN UP_FREQ DIRECTION_DELAY, .delay DIRECTION_DELAY]

/-- The cues of `sequence[lo]`, ..., `sequence[lo + n - 1]`, in index order. -/
def cues (sequence : Nat → DIRECTIONS) (lo : Nat) : Nat → List Event
  | 0 => []
  | n + 1 => cue (sequence lo) ++ cues sequence (lo + 1) n

/-- A controller whose array holds the listed directions from index 0 on
(`up` in the cells beyond), with an empty call log. -/
def mk0 (state : GAME_STATES) (level move : Nat) (cells : List DIRECTIONS) : ArtemisSays :=
  { state := state, level := level, move := move,
    sequence := fun i => cells.getD i up, calls := [] }

/-- The player giving a list of responses, one `checkResponse` call per entry;
each entry pairs the direction said with the draw the random source would
answer during that call. -/
def checkResponses : List (DIRECTIONS × DIRECTIONS) → ArtemisSays → ArtemisSays
  | [], g => g
  | (direction, draw) :: rest, g => checkResponses rest (checkResponse direction draw g)

/-- The first `k` correct responses to the sequence held by `g`:
`sequence[0]`, ..., `sequence[k-1]`. -/
def correctResponses (g : ArtemisSays) (draws : Nat → DIRECTIONS) (k : Nat) :
    List (DIRECTIONS × DIRECTIONS) :=
  (List.range k).map fun i => (g.sequence i, draws i)

/-- The calls logged between the controller `before` a member function and
the controller `after` it. -/
def callsMade (before after : ArtemisSays) : List Event :=
  after.calls.drop before.calls.length

/-- Calls to the presentation collaborators: the display, the audio tone and
the blocking delay of a cue.  The random source and the platform power
control are not presentation. -/
def isPresentation : Event → Bool
  | .drawUp => true
  | .drawRight => true
  | .drawDown => true
  | .drawLeft => true
  | .tone _ _ _ => true
  | .delay _ => true
  | .clearDisplay => true
  | .displayReplayScreen => true
  | .displayEndGame => true
  | .displayComputerTurn _ => true
  | .displayYourTurn => true
  | _ => false

/-- The presentation calls of a log, in order. -/
def presentation (calls : List Event) : List Event :=
  calls.filter isPresentation

/-- The frequency and duration of every `tone` call of a log, in order. -/
def tonesOf : List Event → List (Nat × Nat)
  | [] => []
  | .tone _ frequency duration :: rest => (frequency, duration) :: tonesOf rest
  | _ :: rest => tonesOf rest

/-- The draw calls (`drawUp`, `drawRight`, `drawDown`, `drawLeft`) of a log, in
order. -/
def drawsOf : List Event → List Event
  | [] => []
  | .drawUp :: rest => .drawUp :: drawsOf rest
  | .drawRight :: rest => .drawRight :: drawsOf rest
  | .drawDown :: rest => .drawDown :: drawsOf rest
  | .drawLeft :: rest => .drawLeft :: drawsOf rest
  | _ :: rest => drawsOf rest

/-- The `delay` calls of a log, in order. -/
def delaysOf : List Event → List Nat
  | [] => []
  | .delay ms :: rest => ms :: delaysOf rest
  | _ :: rest => delaysOf rest

/-- Controller `h` agrees with controller `g` on `state`, `level`, `move` and
on every cell of `sequence` below `level`; the cells from `level` on may
differ. -/
def agreeBelowLevel (g h : ArtemisSays) : Prop :=
  h.state = g.state ∧ h.level = g.level ∧ h.move = g.move ∧
    ∀ i, i < g.level → h.sequence i = g.sequence i

/-! ## The member functions step by step

The same member functions, statement by statement, on a controller that also
records every read and every write of a data member, interleaved with the
collaborator calls, in the order the statements perform them.  Within one
expression the reads are recorded left to right.  Parameters and locals
(`direction`, `position`) are not data members and leave no step. -/

/-- One step of a member function: a collaborator call, or a read or a write
of a data member. -/
inductive Step where
  | call (e : Event)
  | readState
  | readLevel
  | readMove
  | readSequence (index : Nat)
  | writeState (value : GAME_STATES)
  | writeLevel (value : Nat)
  | writeMove (value : Nat)
  | writeSequence (index : Nat) (value : DIRECTIONS)
  deriving DecidableEq

/-- The controller object together with the steps performed on it so far. -/
structure Traced where
  obj : ArtemisSays
  steps : List Step

/-- A call to a collaborator. -/
def Traced.call (e : Event) (t : Traced) : Traced :=
  { obj := emit e t.obj, steps := t.steps ++ [Step.call e] }

/-- Reading `level`. -/
def Traced.readLevel (t : Traced) : Nat × Traced :=
  (t.obj.level, { t with steps := t.steps ++ [Step.readLevel] })

/-- Reading `move`. -/
def Traced.readMove (t : Traced) : Nat × Traced :=
  (t.obj.move, { t with steps := t.steps ++ [Step.readMove] })

/-- Reading `sequence[index]`. -/
def Traced.readSequence (index : Nat) (t : Traced) : DIRECTIONS × Traced :=
  (t.obj.sequence index, { t with steps := t.steps ++ [Step.readSequence index] })

/-- Assigning `state`. -/
def Traced.writeState (value : GAME_STATES) (t : Traced) : Traced :=
  { obj := { t.obj with state := value }, steps := t.steps ++ [Step.writeState value] }

/-- Assigning `level`. -/
def Traced.writeLevel (value : Nat) (t : Traced) : Traced :=
  { obj := { t.obj with level := value }, steps := t.steps ++ [Step.writeLevel value] }

/-- Assigning `move`. -/
def Traced.writeMove (value : Nat) (t : Traced) : Traced :=
  { obj := { t.obj with move := value }, steps := t.steps ++ [Step.writeMove value] }

/-- Assigning `sequence[index]`. -/
def Traced.writeSequence (index : Nat) (value : DIRECTIONS) (t : Traced) : Traced :=
  { obj := { t.obj with sequence := Function.update t.obj.sequence index value },
    steps := t.steps ++ [Step.writeSequence index value] }

def Traced.displayDirection (direction : DIRECTIONS) (t : Traced) : Traced :=
  let t :=
    match direction with
    | right =>
      Traced.call (.tone AUDIO_PIN RIGHT_FREQ DIRECTION_DELAY) (Traced.call .drawRight t)
    | left =>
      Traced.call (.tone AUDIO_PIN LEFT_FREQ DIRECTION_DELAY) (Traced.call .drawLeft t)
    | down =>
      Traced.call (.tone AUDIO_PIN DOWN_FREQ DIRECTION_DELAY) (Traced.call .drawDown t)
    | up =>
      Traced.call (.tone AUDIO_PIN UP_FREQ DIRECTION_DELAY) (Traced.call .drawUp t)
  Traced.call (.delay DIRECTION_DELAY) t

def Traced.setRandomDirection (draw : DIRECTIONS) (t : Traced) : Traced :=
  let t := Traced.call (.random 1 5) t
  let direction := draw
  let index := Traced.readLevel t
  let t := Traced.writeSequence index.1 direction index.2
  let old := Traced.readLevel t
  Traced.writeLevel (old.1 + 1) old.2

/-- The `while (position < level)` loop of `displaySequence`. -/
def Traced.displaySequenceLoop (t : Traced) (position : Nat) : Traced :=
  let bound := Traced.readLevel t
  if position < bound.1 then
    let direction := Traced.readSequence position bound.2
    let t1 := Traced.displayDirection direction.1 direction.2
    Traced.displaySequenceLoop t1 (position + 1)
  else
    bound.2
termination_by t.obj.level - position
decreasing_by
  have hlevel : (Traced.displayDirection
      (Traced.readSequence position (Traced.readLevel t).2).1
      (Traced.readSequence position (Traced.readLevel t).2).2).obj.level = t.obj.level := by
    cases (Traced.readSequence position (Traced.readLevel t).2).1 <;> rfl
  have hbound : bound.1 = t.obj.level := rfl
  rw [hlevel]
  omega

def Traced.displaySequence (t : Traced) : Traced :=
  let position := 0
  let shown := Traced.readLevel t
  let t := Traced.call (.displayComputerTurn shown.1) shown.2
  let t := Traced.displaySequenceLoop t position
  Traced.call .displayYourTurn t

def Traced.nextLevel (draw : DIRECTIONS) (t : Traced) : Traced :=
  let t := Traced.setRandomDirection draw t
  let t := Traced.displaySequence t
  let t := Traced.writeMove 0 t
  Traced.writeState START_GAME t

def Traced.checkResponse (direction : DIRECTIONS) (draw : DIRECTIONS) (t : Traced) :
    Traced :=
  let t := Traced.displayDirection direction t
  let cursor := Traced.readMove t
  let expected := Traced.readSequence cursor.1 cursor.2
  if direction = expected.1 then
    let old := Traced.readMove expected.2
    let t := Traced.writeMove (old.1 + 1) old.2
    let t := Traced.call .clearDisplay t
    let cursor := Traced.readMove t
    let bound := Traced.readLevel cursor.2
    if cursor.1 = bound.1 then
      Traced.nextLevel draw bound.2
    else
      bound.2
  else
    let t := Traced.call .displayReplayScreen expected.2
    Traced.writeState END_GAME t

/-- The steps performed between `before` a member function and `after` it. -/
def stepsMade (before after : Traced) : List Step :=
  after.steps.drop before.steps.length

/-- The collaborator calls among a list of steps, in order. -/
def callsOf : List Step → List Event
  | [] => []
  | .call e :: rest => e :: callsOf rest
  | _ :: rest => callsOf rest

/-- Whether a step reads or writes a data member. -/
def Step.isAccess : Step → Bool
  | .call _ => false
  | _ => true

/-- Whether a step assigns `move` or `state`. -/
def Step.assignsMoveOrState : Step → Bool
  | .writeMove _ => true
  | .writeState _ => true
  | _ => false

/-- The steps of the loop of `displaySequence` from `position = lo` with `n`
cells left: for each cell the test of the loop, the read of the cell and its
cue; then the test that leaves the loop. -/
def loopSteps (sequence : Nat → DIRECTIONS) (lo : Nat) : Nat → List Step
  | 0 => [Step.readLevel]
  | n + 1 =>
    [Step.readLevel, Step.readSequence lo] ++ (cue (sequence lo)).map Step.call
      ++ loopSteps sequence (lo + 1) n

/-! ## Basic facts about the member functions -/

@[simp] theorem emit_state (e : Event) (g : ArtemisSays) : (emit e g).state = g.state := rfl
@[simp] theorem emit_level (e : Event) (g : ArtemisSays) : (emit e g).level = g.level := rfl
@[simp] theorem emit_move (e : Event) (g : ArtemisSays) : (emit e g).move = g.move := rfl
@[simp] theorem emit_sequence (e : Event) (g : ArtemisSays) :
    (emit e g).sequence = g.sequence := rfl
@[simp] theorem emit_calls (e : Event) (g : ArtemisSays) :
    (emit e g).calls = g.calls ++ [e] := rfl

@[simp] theorem displayDirection_state (d : DIRECTIONS) (g : ArtemisSays) :
    (displayDirection d g).state = g.state := by cases d <;> rfl
@[simp] theorem displayDirection_level (d : DIRECTIONS) (g : ArtemisSays) :
    (displayDirection d g).level = g.level := by cases d <;> rfl
@[simp] theorem displayDirection_move (d : DIRECTIONS) (g : ArtemisSays) :
    (displayDirection d g).move = g.move := by cases d <;> rfl
@[simp] theorem displayDirection_sequence (d : DIRECTIONS) (g : ArtemisSays) :
    (displayDirection d g).sequence = g.sequence := by cases d <;> rfl
@[simp] theorem displayDirection_calls (d : DIRECTIONS) (g : ArtemisSays) :
    (displayDirection d g).calls = g.calls ++ cue d := by
  cases d <;> simp [displayDirection, cue]

/-- The loop of `displaySequence` appends the cues of the cells from `position`
up to `level - 1` and touches nothing else. -/
theorem displaySequenceLoop_eq (n : Nat) :
    ∀ (g : ArtemisSays) (position : Nat), g.level - position = n →
      displaySequenceLoop g position =
        { g with calls := g.calls ++ cues g.sequence position n } := by
  induction n with
  | zero =>
    intro g position h
    rw [displaySequenceLoop]
    have hlt : ¬ position < g.level := by omega
    simp [hlt, cues]
  | succ n ih =>
    intro g position h
    rw [displaySequenceLoop]
    have hlt : position < g.level := by omega
    simp only [hlt, if_true]
    rw [ih _ _ (by simp; omega)]
    simp [cues, List.append_assoc]

theorem displaySequence_eq (g : ArtemisSays) :
    displaySequence g =
      { g with calls := g.calls ++ [Event.displayComputerTurn g.level]
                  ++ cues g.sequence 0 g.level ++ [Event.displayYourTurn] } := by
  unfold displaySequence
  simp only []
  rw [displaySequenceLoop_eq g.level _ 0 (by simp)]
  simp [emit]

theorem nextLevel_eq (draw : DIRECTIONS) (g : ArtemisSays) :
    nextLevel draw g =
      { state := START_GAME, level := g.level + 1, move := 0,
        sequence := Function.update g.sequence g.level draw,
        calls := g.calls ++ [Event.random 1 5]
          ++ [Event.displayComputerTurn (g.level + 1)]
          ++ cues (Function.update g.sequence g.level draw) 0 (g.level + 1)
          ++ [Event.displayYourTurn] } := by
  unfold nextLevel
  simp only [displaySequence_eq]
  simp [setRandomDirection, emit]

theorem checkResponse_incorrect (d draw : DIRECTIONS) (g : ArtemisSays)
    (h : d ≠ g.sequence g.move) :
    checkResponse d draw g =
      { g with state := END_GAME,
               calls := g.calls ++ cue d ++ [Event.displayReplayScreen] } := by
  simp [checkResponse, h, emit]

theorem checkResponse_correct_inner (d draw : DIRECTIONS) (g : ArtemisSays)
    (h : d = g.sequence g.move) (hm : g.move + 1 ≠ g.level) :
    checkResponse d draw g =
      { g with move := g.move + 1,
               calls := g.calls ++ cue d ++ [Event.clearDisplay] } := by
  simp [checkResponse, ← h, hm, emit]

theorem checkResponse_correct_last (d draw : DIRECTIONS) (g : ArtemisSays)
    (h : d = g.sequence g.move) (hm : g.move + 1 = g.level) :
    checkResponse d draw g =
      nextLevel draw { g with move := g.move + 1,
                              calls := g.calls ++ cue d ++ [Event.clearDisplay] } := by
  simp [checkResponse, ← h, hm, emit]

theorem checkResponses_append (xs ys : List (DIRECTIONS × DIRECTIONS)) (g : ArtemisSays) :
    checkResponses (xs ++ ys) g = checkResponses ys (checkResponses xs g) := by
  induction xs generalizing g with
  | nil => rfl
  | cons x xs ih =>
    obtain ⟨d, r⟩ := x
    simp [checkResponses, ih]

theorem correctResponses_succ (g : ArtemisSays) (draws : Nat → DIRECTIONS) (k : Nat) :
    correctResponses g draws (k + 1) =
      correctResponses g draws k ++ [(g.sequence k, draws k)] := by
  simp [correctResponses, List.range_succ]

/-- While the round is not over, `k` correct responses move the cursor to `k`
and leave state, level and sequence alone. -/
theorem checkResponses_correct_inner (g : ArtemisSays) (draws : Nat → DIRECTIONS)
    (hm : g.move = 0) :
    ∀ k, k < g.level →
      (checkResponses (correctResponses g draws k) g).state = g.state ∧
      (checkResponses (correctResponses g draws k) g).level = g.level ∧
      (checkResponses (correctResponses g draws k) g).move = k ∧
      (checkResponses (correctResponses g draws k) g).sequence = g.sequence := by
  intro k
  induction k with
  | zero =>
    intro _
    simp [correctResponses, checkResponses, hm]
  | succ k ih =>
    intro hk
    obtain ⟨hs, hl, hmv, hq⟩ := ih (by omega)
    rw [correctResponses_succ, checkResponses_append]
    simp only [checkResponses]
    rw [checkResponse_correct_inner _ _ _ (by rw [hq, hmv]) (by rw [hmv, hl]; omega)]
    simp [hs, hl, hmv, hq]

theorem endGame_controller (sfeEdge2 : Bool) (memStatus : Nat) (wakes : Bool)
    (g : ArtemisSays) :
    (endGame sfeEdge2 memStatus wakes g).controller.state = COMPLETE ∧
    (endGame sfeEdge2 memStatus wakes g).controller.level = g.level ∧
    (endGame sfeEdge2 memStatus wakes g).controller.move = g.move ∧
    (endGame sfeEdge2 memStatus wakes g).controller.sequence = g.sequence := by
  unfold endGame
  cases sfeEdge2 <;> cases wakes <;> by_cases hm : memStatus = 0 <;>
    simp [hm, Outcome.controller]

theorem endGame_isReturned (sfeEdge2 : Bool) (memStatus : Nat) (wakes : Bool)
    (g : ArtemisSays) :
    (endGame sfeEdge2 memStatus wakes g).isReturned = (decide (memStatus = 0) && wakes) := by
  unfold endGame
  cases sfeEdge2 <;> cases wakes <;> by_cases hm : memStatus = 0 <;>
    simp [hm, Outcome.isReturned]

/-- What a response does to the data members, whatever the state. -/
theorem checkResponse_cases (d draw : DIRECTIONS) (g : ArtemisSays) :
    (d ≠ g.sequence g.move →
      (checkResponse d draw g).state = END_GAME ∧
      (checkResponse d draw g).move = g.move ∧
      (checkResponse d draw g).level = g.level ∧
      (checkResponse d draw g).sequence = g.sequence) ∧
    (d = g.sequence g.move → g.move + 1 ≠ g.level →
      (checkResponse d draw g).state = g.state ∧
      (checkResponse d draw g).move = g.move + 1 ∧
      (checkResponse d draw g).level = g.level ∧
      (checkResponse d draw g).sequence = g.sequence) ∧
    (d = g.sequence g.move → g.move + 1 = g.level →
      (checkResponse d draw g).state = START_GAME ∧
      (checkResponse d draw g).move = 0 ∧
      (checkResponse d draw g).level = g.level + 1 ∧
      (checkResponse d draw g).sequence = Function.update g.sequence g.level draw) := by
  refine ⟨fun h => ?_, fun h hm => ?_, fun h hm => ?_⟩
  · rw [checkResponse_incorrect d draw g h]; simp
  · rw [checkResponse_correct_inner d draw g h hm]; simp
  · rw [checkResponse_correct_last d draw g h hm, nextLevel_eq]; simp

/-- One call keeps the cursor strictly below the level. -/
theorem step_cursor_lt (op : Op) (g : ArtemisSays) (h : g.move < g.level) :
    (step op g).controller.move < (step op g).controller.level := by
  cases op with
  | checkResponse d draw =>
    simp only [step, Outcome.controller]
    obtain ⟨h1, h2, h3⟩ := checkResponse_cases d draw g
    by_cases hd : d = g.sequence g.move
    · by_cases hlast : g.move + 1 = g.level
      · rw [(h3 hd hlast).2.1, (h3 hd hlast).2.2.1]; omega
      · rw [(h2 hd hlast).2.1, (h2 hd hlast).2.2.1]; omega
    · rw [(h1 hd).2.1, (h1 hd).2.2.1]; exact h
  | nextLevel draw =>
    simp [step, Outcome.controller, nextLevel_eq]
  | restartGame draw =>
    simp [step, Outcome.controller, restartGame, nextLevel_eq]
  | endGame b m w =>
    obtain ⟨_, hl, hm, _⟩ := endGame_controller b m w g
    simp only [step]
    rw [hl, hm]; exact h

theorem run_cursor_lt (ops : List Op) :
    ∀ g : ArtemisSays, g.move < g.level →
      (run ops g).controller.move < (run ops g).controller.level := by
  induction ops with
  | nil => intro g h; exact h
  | cons op ops ih =>
    intro g h
    have hstep := step_cursor_lt op g h
    simp only [run]
    cases hs : step op g with
    | returned g1 =>
      rw [hs] at hstep
      exact ih g1 hstep
    | blocked g1 =>
      rw [hs] at hstep
      exact hstep

/-- One call raises the level by at most one. -/
theorem step_level_le (op : Op) (g : ArtemisSays) :
    (step op g).controller.level ≤ g.level + 1 := by
  cases op with
  | checkResponse d draw =>
    simp only [step, Outcome.controller]
    obtain ⟨h1, h2, h3⟩ := checkResponse_cases d draw g
    by_cases hd : d = g.sequence g.move
    · by_cases hlast : g.move + 1 = g.level
      · rw [(h3 hd hlast).2.2.1]
      · rw [(h2 hd hlast).2.2.1]; omega
    · rw [(h1 hd).2.2.1]; omega
  | nextLevel draw =>
    simp [step, Outcome.controller, nextLevel_eq]
  | restartGame draw =>
    simp [step, Outcome.controller, restartGame, nextLevel_eq]
  | endGame b m w =>
    obtain ⟨_, hl, _, _⟩ := endGame_controller b m w g
    simp only [step]
    rw [hl]; omega

/-- A call made with room for the entry it may add keeps the level within the
array. -/
theorem step_level_le_capacity (maxSequenceLength : Nat) (op : Op) (g : ArtemisSays)
    (hroom : hasRoom maxSequenceLength op g = true) (hle : g.level ≤ maxSequenceLength) :
    (step op g).controller.level ≤ maxSequenceLength := by
  cases op with
  | checkResponse d draw =>
    simp only [step, Outcome.controller]
    obtain ⟨h1, h2, h3⟩ := checkResponse_cases d draw g
    by_cases hd : d = g.sequence g.move
    · by_cases hlast : g.move + 1 = g.level
      · rw [(h3 hd hlast).2.2.1]
        have hlt : g.level < maxSequenceLength := by
          simpa [hasRoom, hd, hlast] using hroom
        omega
      · rw [(h2 hd hlast).2.2.1]; exact hle
    · rw [(h1 hd).2.2.1]; exact hle
  | nextLevel draw =>
    have hlt : g.level < maxSequenceLength := by simpa [hasRoom] using hroom
    simp only [step, Outcome.controller, nextLevel_eq]
    omega
  | restartGame draw =>
    have hlt : 0 < maxSequenceLength := by simpa [hasRoom] using hroom
    simp only [step, Outcome.controller, restartGame, nextLevel_eq]
    omega
  | endGame b m w =>
    obtain ⟨_, hl, _, _⟩ := endGame_controller b m w g
    simp only [step]
    rw [hl]; exact hle

theorem run_level_le_capacity (maxSequenceLength : Nat) (ops : List Op) :
    ∀ g : ArtemisSays, runHasRoom maxSequenceLength ops g = true →
      g.level ≤ maxSequenceLength →
      (run ops g).controller.level ≤ maxSequenceLength := by
  induction ops with
  | nil => intro g _ hle; exact hle
  | cons op ops ih =>
    intro g hroom hle
    simp only [runHasRoom, Bool.and_eq_true] at hroom
    have hstep := step_level_le_capacity maxSequenceLength op g hroom.1 hle
    have hrest := hroom.2
    simp only [run]
    cases hs : step op g with
    | returned g1 =>
      rw [hs] at hstep hrest
      exact ih g1 hrest hstep
    | blocked g1 =>
      rw [hs] at hstep
      exact hstep

/-- Calling `nextLevel` `k` times in a row raises the level by `k`. -/
theorem run_nextLevel_level (draw : DIRECTIONS) (k : Nat) :
    ∀ g : ArtemisSays,
      (run (List.replicate k (Op.nextLevel draw)) g).controller.level = g.level + k := by
  induction k with
  | zero => intro g; rfl
  | succ k ih =>
    intro g
    simp only [List.replicate_succ, run, step]
    rw [ih, nextLevel_eq]
    simp only []
    omega

/-- The cues of a block of cells, as one cue per index in increasing order. -/
theorem cues_eq_flatMap (sequence : Nat → DIRECTIONS) (n : Nat) :
    ∀ lo, cues sequence lo n =
      (List.range n).flatMap fun i => cue (sequence (lo + i)) := by
  induction n with
  | zero => intro lo; rfl
  | succ n ih =>
    intro lo
    rw [cues, ih, List.range_succ_eq_map, List.flatMap_cons, List.flatMap_map]
    congr 1
    congr 1
    funext i
    simp only [Function.comp, Nat.succ_eq_add_one]
    congr 2
    omega

/-- No cue and no `clearDisplay` is a draw from the random source or one of
the two banners of `displaySequence`. -/
theorem cue_clear_not_replay (d : DIRECTIONS) (e : Event)
    (he : e ∈ cue d ++ [Event.clearDisplay]) :
    e ≠ Event.random 1 5 ∧ e ≠ Event.displayYourTurn ∧
      ∀ n, e ≠ Event.displayComputerTurn n := by
  cases d <;> simp [cue] at he <;> rcases he with h | h | h | h <;> subst h <;> simp

theorem callsMade_of_append (g h : ArtemisSays) (t : List Event)
    (hcalls : h.calls = g.calls ++ t) : callsMade g h = t := by
  unfold callsMade
  rw [hcalls]
  exact List.drop_left _ _

theorem presentation_cue (d : DIRECTIONS) : presentation (cue d) = cue d := by
  cases d <;> rfl

/-- The cues of the first `n` cells are presentation calls only. -/
theorem presentation_cues (sequence : Nat → DIRECTIONS) (n : Nat) :
    presentation ((List.range n).flatMap fun i => cue (sequence i)) =
      (List.range n).flatMap fun i => cue (sequence i) := by
  unfold presentation
  rw [List.filter_eq_self]
  intro e he
  obtain ⟨i, _, hi⟩ := List.mem_flatMap.mp he
  have hp := presentation_cue (sequence i)
  unfold presentation at hp
  exact (List.filter_eq_self.mp hp) e hi

/-- After the store at index `n`, the cues of the cells `0..n` are the cues of
the old cells `0..n-1` followed by the cue of the stored direction. -/
theorem cues_update (sequence : Nat → DIRECTIONS) (n : Nat) (r : DIRECTIONS) :
    cues (Function.update sequence n r) 0 (n + 1) =
      ((List.range n).flatMap fun i => cue (sequence i)) ++ cue r := by
  rw [cues_eq_flatMap, List.range_succ, List.flatMap_append]
  congr 1
  · apply List.flatMap_congr
    intro i hi
    have hlt : i < n := List.mem_range.mp hi
    show cue (Function.update sequence n r (0 + i)) = cue (sequence i)
    rw [Nat.zero_add, Function.update_noteq (by omega)]
  · rw [List.flatMap_singleton, Nat.zero_add, Function.update_same]

theorem callsMade_through (g g1 h : ArtemisSays) (a b : List Event)
    (h1 : g1.calls = g.calls ++ a) (h2 : h.calls = g1.calls ++ b) :
    callsMade g h = a ++ callsMade g1 h := by
  rw [callsMade_of_append g1 h b h2]
  apply callsMade_of_append
  rw [h2, h1, List.append_assoc]

theorem nextLevel_calls (draw : DIRECTIONS) (g : ArtemisSays) :
    (nextLevel draw g).calls =
      g.calls ++ (Event.random 1 5 :: Event.displayComputerTurn (g.level + 1) ::
        (cues (Function.update g.sequence g.level draw) 0 (g.level + 1)
          ++ [Event.displayYourTurn])) := by
  rw [nextLevel_eq]
  simp

theorem nextLevel_fields (draw : DIRECTIONS) (g : ArtemisSays) :
    (nextLevel draw g).state = START_GAME ∧
    (nextLevel draw g).move = 0 ∧
    (nextLevel draw g).level = g.level + 1 ∧
    (nextLevel draw g).sequence = Function.update g.sequence g.level draw := by
  rw [nextLevel_eq]
  exact ⟨rfl, rfl, rfl, rfl⟩

theorem restartGame_fields (draw : DIRECTIONS) (g : ArtemisSays) :
    (restartGame draw g).state = START_GAME ∧
    (restartGame draw g).move = 0 ∧
    (restartGame draw g).level = 1 ∧
    (restartGame draw g).sequence = Function.update g.sequence 0 draw := by
  unfold restartGame
  rw [nextLevel_eq]
  exact ⟨rfl, rfl, rfl, rfl⟩

/-- Storing the same direction at index `n` of two arrays that agree below `n`
gives arrays that agree below `n + 1`. -/
theorem update_agree (s t : Nat → DIRECTIONS) (n : Nat) (draw : DIRECTIONS)
    (hq : ∀ i, i < n → t i = s i) :
    ∀ i, i < n + 1 → Function.update t n draw i = Function.update s n draw i := by
  intro i hi
  by_cases hin : i = n
  · rw [hin, Function.update_same, Function.update_same]
  · rw [Function.update_noteq hin, Function.update_noteq hin]
    exact hq i (by omega)

/-- With the cursor below the level, one call does the same to two controllers
that agree below the level: it reads no cell at or above the level. -/
theorem step_agreeBelowLevel (op : Op) (g h : ArtemisSays) (hlt : g.move < g.level)
    (hag : agreeBelowLevel g h) :
    (step op h).isReturned = (step op g).isReturned ∧
      agreeBelowLevel (step op g).controller (step op h).controller := by
  obtain ⟨hs, hl, hm, hq⟩ := hag
  have hread : h.sequence h.move = g.sequence g.move := by rw [hm]; exact hq _ hlt
  unfold agreeBelowLevel
  cases op with
  | checkResponse d draw =>
    simp only [step, Outcome.controller, Outcome.isReturned, true_and]
    obtain ⟨g1, g2, g3⟩ := checkResponse_cases d draw g
    obtain ⟨h1, h2, h3⟩ := checkResponse_cases d draw h
    rw [hread, hm, hl] at h1 h2 h3
    rw [hs] at h2
    by_cases hd : d = g.sequence g.move
    · by_cases hlast : g.move + 1 = g.level
      · obtain ⟨a1, a2, a3, a4⟩ := g3 hd hlast
        obtain ⟨b1, b2, b3, b4⟩ := h3 hd hlast
        rw [a1, a2, a3, a4, b1, b2, b3, b4]
        exact ⟨rfl, rfl, rfl, update_agree _ _ _ _ hq⟩
      · obtain ⟨a1, a2, a3, a4⟩ := g2 hd hlast
        obtain ⟨b1, b2, b3, b4⟩ := h2 hd hlast
        rw [a1, a2, a3, a4, b1, b2, b3, b4]
        exact ⟨rfl, rfl, rfl, hq⟩
    · obtain ⟨a1, a2, a3, a4⟩ := g1 hd
      obtain ⟨b1, b2, b3, b4⟩ := h1 hd
      rw [a1, a2, a3, a4, b1, b2, b3, b4]
      exact ⟨rfl, rfl, rfl, hq⟩
  | nextLevel draw =>
    simp only [step, Outcome.controller, Outcome.isReturned, true_and]
    obtain ⟨a1, a2, a3, a4⟩ := nextLevel_fields draw g
    obtain ⟨b1, b2, b3, b4⟩ := nextLevel_fields draw h
    rw [a1, a2, a3, a4, b1, b2, b3, b4, hl]
    exact ⟨rfl, rfl, rfl, update_agree _ _ _ _ hq⟩
  | restartGame draw =>
    simp only [step, Outcome.controller, Outcome.isReturned, true_and]
    obtain ⟨a1, a2, a3, a4⟩ := restartGame_fields draw g
    obtain ⟨b1, b2, b3, b4⟩ := restartGame_fields draw h
    rw [a1, a2, a3, a4, b1, b2, b3, b4]
    exact ⟨rfl, rfl, rfl, update_agree _ _ 0 _ (fun i hi => absurd hi (Nat.not_lt_zero i))⟩
  | endGame b m w =>
    obtain ⟨a1, a2, a3, a4⟩ := endGame_controller b m w g
    obtain ⟨b1, b2, b3, b4⟩ := endGame_controller b m w h
    simp only [step]
    rw [a1, a2, a3, a4, b1, b2, b3, b4, endGame_isReturned, endGame_isReturned]
    exact ⟨rfl, rfl, hl, hm, hq⟩

theorem run_agreeBelowLevel (ops : List Op) :
    ∀ g h : ArtemisSays, g.move < g.level → agreeBelowLevel g h →
      (run ops h).isReturned = (run ops g).isReturned ∧
        agreeBelowLevel (run ops g).controller (run ops h).controller := by
  induction ops with
  | nil => intro g h _ hag; exact ⟨rfl, hag⟩
  | cons op ops ih =>
    intro g h hlt hag
    have hstep := step_agreeBelowLevel op g h hlt hag
    have hcur := step_cursor_lt op g hlt
    simp only [run]
    cases hg : step op g with
    | returned g1 =>
      cases hh : step op h with
      | returned h1 =>
        rw [hg, hh] at hstep
        rw [hg] at hcur
        exact ih g1 h1 hcur hstep.2
      | blocked h1 =>
        rw [hg, hh] at hstep
        exact absurd hstep.1 (by simp [Outcome.isReturned])
    | blocked g1 =>
      cases hh : step op h with
      | returned h1 =>
        rw [hg, hh] at hstep
        exact absurd hstep.1 (by simp [Outcome.isReturned])
      | blocked h1 =>
        rw [hg, hh] at hstep
        exact ⟨rfl, hstep.2⟩

/-! ## Basic facts about the member functions step by step -/

theorem displayDirection_eq (d : DIRECTIONS) (g : ArtemisSays) :
    displayDirection d g = { g with calls := g.calls ++ cue d } := by
  cases d <;> simp [displayDirection, emit, cue]

theorem traced_displayDirection_eq (d : DIRECTIONS) (t : Traced) :
    Traced.displayDirection d t =
      { obj := displayDirection d t.obj,
        steps := t.steps ++ (cue d).map Step.call } := by
  cases d <;> simp [Traced.displayDirection, Traced.call, displayDirection, cue]

theorem traced_setRandomDirection_eq (draw : DIRECTIONS) (t : Traced) :
    Traced.setRandomDirection draw t =
      { obj := setRandomDirection draw t.obj,
        steps := t.steps ++
          [Step.call (Event.random 1 5), Step.readLevel,
           Step.writeSequence t.obj.level draw, Step.readLevel,
           Step.writeLevel (t.obj.level + 1)] } := by
  simp [Traced.setRandomDirection, Traced.call, Traced.readLevel, Traced.writeSequence,
    Traced.writeLevel, setRandomDirection, emit]

theorem traced_displaySequenceLoop_eq (n : Nat) :
    ∀ (t : Traced) (position : Nat), t.obj.level - position = n →
      Traced.displaySequenceLoop t position =
        { obj := { t.obj with calls := t.obj.calls ++ cues t.obj.sequence position n },
          steps := t.steps ++ loopSteps t.obj.sequence position n } := by
  induction n with
  | zero =>
    intro t position h
    rw [Traced.displaySequenceLoop]
    have hlt : ¬ position < t.obj.level := by omega
    simp [Traced.readLevel, hlt, cues, loopSteps]
  | succ n ih =>
    intro t position h
    rw [Traced.displaySequenceLoop]
    have hlt : position < t.obj.level := by omega
    simp only [Traced.readLevel, Traced.readSequence, hlt, if_true]
    rw [traced_displayDirection_eq, ih _ _ (by simp; omega)]
    simp [displayDirection_eq, cues, loopSteps, List.append_assoc]

theorem traced_displaySequence_eq (t : Traced) :
    Traced.displaySequence t =
      { obj := displaySequence t.obj,
        steps := t.steps ++
          ([Step.readLevel, Step.call (Event.displayComputerTurn t.obj.level)]
            ++ loopSteps t.obj.sequence 0 t.obj.level
            ++ [Step.call Event.displayYourTurn]) } := by
  unfold Traced.displaySequence
  simp only [Traced.readLevel, Traced.call]
  rw [traced_displaySequenceLoop_eq t.obj.level _ 0 (by simp), displaySequence_eq]
  simp [emit, List.append_assoc]

theorem traced_nextLevel_eq (draw : DIRECTIONS) (t : Traced) :
    Traced.nextLevel draw t =
      { obj := nextLevel draw t.obj,
        steps := t.steps ++
          (([Step.call (Event.random 1 5), Step.readLevel,
             Step.writeSequence t.obj.level draw, Step.readLevel,
             Step.writeLevel (t.obj.level + 1),
             Step.readLevel, Step.call (Event.displayComputerTurn (t.obj.level + 1))]
            ++ loopSteps (Function.update t.obj.sequence t.obj.level draw) 0 (t.obj.level + 1)
            ++ [Step.call Event.displayYourTurn])
          ++ [Step.writeMove 0, Step.writeState START_GAME]) } := by
  unfold Traced.nextLevel
  simp only [traced_setRandomDirection_eq, traced_displaySequence_eq]
  simp [Traced.writeMove, Traced.writeState, nextLevel, setRandomDirection, emit,
    List.append_assoc]

theorem stepsMade_of_append (t u : Traced) (l : List Step)
    (hsteps : u.steps = t.steps ++ l) : stepsMade t u = l := by
  unfold stepsMade
  rw [hsteps]
  exact List.drop_left _ _

theorem callsOf_append (xs ys : List Step) :
    callsOf (xs ++ ys) = callsOf xs ++ callsOf ys := by
  induction xs with
  | nil => rfl
  | cons x xs ih => cases x <;> simp [callsOf, ih]

theorem callsOf_map_call (es : List Event) : callsOf (es.map Step.call) = es := by
  induction es with
  | nil => rfl
  | cons e es ih => simp [callsOf, ih]

theorem callsOf_loopSteps (sequence : Nat → DIRECTIONS) (n : Nat) :
    ∀ lo, callsOf (loopSteps sequence lo n) = cues sequence lo n := by
  induction n with
  | zero => intro lo; rfl
  | succ n ih =>
    intro lo
    simp [loopSteps, cues, callsOf, callsOf_append, callsOf_map_call, ih]

theorem loopSteps_assign_free (sequence : Nat → DIRECTIONS) (n : Nat) :
    ∀ lo s, s ∈ loopSteps sequence lo n → s.assignsMoveOrState = false := by
  induction n with
  | zero =>
    intro lo s hs
    simp [loopSteps] at hs
    subst hs
    rfl
  | succ n ih =>
    intro lo s hs
    simp only [loopSteps, List.mem_append, List.mem_cons, List.mem_map,
      List.mem_singleton, List.not_mem_nil, or_false] at hs
    rcases hs with ((h | h) | ⟨e, _, h⟩) | h
    · subst h; rfl
    · subst h; rfl
    · subst h; rfl
    · exact ih _ _ h

theorem traced_checkResponse_incorrect (d draw : DIRECTIONS) (t : Traced)
    (h : d ≠ t.obj.sequence t.obj.move) :
    Traced.checkResponse d draw t =
      { obj := checkResponse d draw t.obj,
        steps := t.steps ++ ((cue d).map Step.call ++
          [Step.readMove, Step.readSequence t.obj.move,
           Step.call Event.displayReplayScreen, Step.writeState END_GAME]) } := by
  rw [checkResponse_incorrect d draw t.obj h]
  simp [Traced.checkResponse, traced_displayDirection_eq, Traced.readMove,
    Traced.readSequence, Traced.call, Traced.writeState, h, emit, displayDirection_eq,
    List.append_assoc]

theorem traced_checkResponse_correct_inner (d draw : DIRECTIONS) (t : Traced)
    (h : d = t.obj.sequence t.obj.move) (hm : t.obj.move + 1 ≠ t.obj.level) :
    Traced.checkResponse d draw t =
      { obj := checkResponse d draw t.obj,
        steps := t.steps ++ ((cue d).map Step.call ++
          [Step.readMove, Step.readSequence t.obj.move,
           Step.readMove, Step.writeMove (t.obj.move + 1),
           Step.call Event.clearDisplay, Step.readMove, Step.readLevel]) } := by
  rw [checkResponse_correct_inner d draw t.obj h hm]
  simp [Traced.checkResponse, traced_displayDirection_eq, Traced.readMove,
    Traced.readSequence, Traced.readLevel, Traced.call, Traced.writeMove, ← h, hm, emit,
    displayDirection_eq, List.append_assoc]

theorem traced_checkResponse_correct_last (d draw : DIRECTIONS) (t : Traced)
    (h : d = t.obj.sequence t.obj.move) (hm : t.obj.move + 1 = t.obj.level) :
    Traced.checkResponse d draw t =
      Traced.nextLevel draw
        { obj := { t.obj with move := t.obj.move + 1,
                              calls := t.obj.calls ++ cue d ++ [Event.clearDisplay] },
          steps := t.steps ++ ((cue d).map Step.call ++
            [Step.readMove, Step.readSequence t.obj.move,
             Step.readMove, Step.writeMove (t.obj.move + 1),
             Step.call Event.clearDisplay, Step.readMove, Step.readLevel]) } := by
  simp [Traced.checkResponse, traced_displayDirection_eq, Traced.readMove,
    Traced.readSequence, Traced.readLevel, Traced.call, Traced.writeMove, ← h, hm, emit,
    displayDirection_eq, List.append_assoc]

theorem stepsMade_through (t u v : Traced) (a b : List Step)
    (h1 : u.steps = t.steps ++ a) (h2 : v.steps = u.steps ++ b) :
    stepsMade t v = a ++ stepsMade u v := by
  rw [stepsMade_of_append u v b h2]
  apply stepsMade_of_append
  rw [h2, h1, List.append_assoc]

theorem traced_nextLevel_steps (draw : DIRECTIONS) (t : Traced) :
    (Traced.nextLevel draw t).steps =
      t.steps ++
        (([Step.call (Event.random 1 5), Step.readLevel,
            Step.writeSequence t.obj.level draw, Step.readLevel,
            Step.writeLevel (t.obj.level + 1),
            Step.readLevel, Step.call (Event.displayComputerTurn (t.obj.level + 1))]
          ++ loopSteps (Function.update t.obj.sequence t.obj.level draw) 0 (t.obj.level + 1)
          ++ [Step.call Event.displayYourTurn])
        ++ [Step.writeMove 0, Step.writeState START_GAME]) := by
  rw [traced_nextLevel_eq]

theorem traced_checkResponse_obj (d draw : DIRECTIONS) (t : Traced) :
    (Traced.checkResponse d draw t).obj = checkResponse d draw t.obj := by
  by_cases h : d = t.obj.sequence t.obj.move
  · by_cases hm : t.obj.move + 1 = t.obj.level
    · rw [traced_checkResponse_correct_last d draw t h hm, traced_nextLevel_eq,
        checkResponse_correct_last d draw t.obj h hm]
    · rw [traced_checkResponse_correct_inner d draw t h hm]
  · rw [traced_checkResponse_incorrect d draw t h]

/-! ## The claims -/

/-- C1: from every controller state and for every random draw, after
`restartGame` `level == 1`, `move == 0`, `state == START_GAME` and
`sequence[0]` is the drawn direction. -/
theorem restartGame_postcondition (g : ArtemisSays) (draw : DIRECTIONS) :
    (restartGame draw g).level = 1 ∧
    (restartGame draw g).move = 0 ∧
    (restartGame draw g).state = START_GAME ∧
    (restartGame draw g).sequence 0 = draw := by
  simp [restartGame, nextLevel_eq]

/-- C2: from a state with `state == START_GAME`, `move == 0` and
`level == n`, `1 <= n < maxSequenceLength`, the `n` correct responses
`sequence[0]`, ..., `sequence[n-1]` end with `level == n + 1`, `move == 0`,
`state == START_GAME` and the first `n` entries unchanged; after the first `k`
of them, `k < n`, `move == k` and `level == n`. -/
theorem correct_round_advances_level (maxSequenceLength n : Nat) (g : ArtemisSays)
    (draws : Nat → DIRECTIONS)
    (_hstate : g.state = START_GAME) (hmove : g.move = 0) (hlevel : g.level = n)
    (hn : 1 ≤ n) (hcap : n < maxSequenceLength) :
    (checkResponses (correctResponses g draws n) g).level = n + 1 ∧
    (checkResponses (correctResponses g draws n) g).move = 0 ∧
    (checkResponses (correctResponses g draws n) g).state = START_GAME ∧
    (∀ i, i < n →
      (checkResponses (correctResponses g draws n) g).sequence i = g.sequence i) ∧
    (∀ k, k < n →
      (checkResponses (correctResponses g draws k) g).move = k ∧
      (checkResponses (correctResponses g draws k) g).level = n) := by
  have inner := checkResponses_correct_inner g draws hmove
  obtain ⟨m, rfl⟩ : ∃ m, n = m + 1 := ⟨n - 1, by omega⟩
  obtain ⟨hs, hl, hmv, hq⟩ := inner m (by omega)
  have hlast : checkResponses (correctResponses g draws (m + 1)) g =
      nextLevel (draws m)
        { checkResponses (correctResponses g draws m) g with
          move := (checkResponses (correctResponses g draws m) g).move + 1,
          calls := (checkResponses (correctResponses g draws m) g).calls
            ++ cue (g.sequence m) ++ [Event.clearDisplay] } := by
    rw [correctResponses_succ, checkResponses_append]
    simp only [checkResponses]
    rw [checkResponse_correct_last _ _ _ (by rw [hq, hmv]) (by rw [hmv, hl, hlevel])]
  refine ⟨?_, ?_, ?_, ?_, ?_⟩
  · rw [hlast, nextLevel_eq]; simp [hl, hlevel]
  · rw [hlast, nextLevel_eq]
  · rw [hlast, nextLevel_eq]
  · intro i hi
    rw [hlast, nextLevel_eq]
    simp only [hl, hq, hlevel]
    exact Function.update_noteq (by omega) _ _
  · intro k hk
    obtain ⟨_, hl', hmv', _⟩ := inner k (by omega)
    exact ⟨hmv', by rw [hl', hlevel]⟩

/-- C2 at the sequence `[up, left]`, level 2, in an array of 100 cells. -/
theorem correct_round_advances_level_witness :
    ((mk0 START_GAME 2 0 [up, left]).state = START_GAME ∧
      (mk0 START_GAME 2 0 [up, left]).move = 0 ∧
      (mk0 START_GAME 2 0 [up, left]).level = 2 ∧ 1 ≤ 2 ∧ 2 < 100) ∧
    ((checkResponses (correctResponses (mk0 START_GAME 2 0 [up, left]) (fun _ => down) 2)
      (mk0 START_GAME 2 0 [up, left])).level = 2 + 1 ∧
    (checkResponses (correctResponses (mk0 START_GAME 2 0 [up, left]) (fun _ => down) 2)
      (mk0 START_GAME 2 0 [up, left])).move = 0 ∧
    (checkResponses (correctResponses (mk0 START_GAME 2 0 [up, left]) (fun _ => down) 2)
      (mk0 START_GAME 2 0 [up, left])).state = START_GAME ∧
    (∀ i, i < 2 →
      (checkResponses (correctResponses (mk0 START_GAME 2 0 [up, left]) (fun _ => down) 2)
        (mk0 START_GAME 2 0 [up, left])).sequence i =
      (mk0 START_GAME 2 0 [up, left]).sequence i) ∧
    (∀ k, k < 2 →
      (checkResponses (correctResponses (mk0 START_GAME 2 0 [up, left]) (fun _ => down) k)
        (mk0 START_GAME 2 0 [up, left])).move = k ∧
      (checkResponses (correctResponses (mk0 START_GAME 2 0 [up, left]) (fun _ => down) k)
        (mk0 START_GAME 2 0 [up, left])).level = 2)) :=
  ⟨⟨rfl, rfl, rfl, by decide, by decide⟩,
    correct_round_advances_level 100 2 (mk0 START_GAME 2 0 [up, left])
      (fun _ => down) rfl rfl rfl (by decide) (by decide)⟩

/-- C3: in a state with `state == START_GAME` and `move < level`, a response
`d != sequence[move]` sets `state` to `END_GAME` and leaves `level`, `move` and
every sequence entry unchanged. -/
theorem incorrect_response_ends_game (g : ArtemisSays) (d draw : DIRECTIONS)
    (_hstate : g.state = START_GAME) (_hmove : g.move < g.level)
    (hd : d ≠ g.sequence g.move) :
    (checkResponse d draw g).state = END_GAME ∧
    (checkResponse d draw g).level = g.level ∧
    (checkResponse d draw g).move = g.move ∧
    (∀ i, (checkResponse d draw g).sequence i = g.sequence i) := by
  rw [checkResponse_incorrect d draw g hd]
  simp

/-- C3 at the scenario of the specification: sequence `[up, left]`, move 0,
response `down`. -/
theorem incorrect_response_ends_game_witness :
    ((mk0 START_GAME 2 0 [up, left]).state = START_GAME ∧
      (mk0 START_GAME 2 0 [up, left]).move < (mk0 START_GAME 2 0 [up, left]).level ∧
      down ≠ (mk0 START_GAME 2 0 [up, left]).sequence (mk0 START_GAME 2 0 [up, left]).move) ∧
    ((checkResponse down up (mk0 START_GAME 2 0 [up, left])).state = END_GAME ∧
    (checkResponse down up (mk0 START_GAME 2 0 [up, left])).level =
      (mk0 START_GAME 2 0 [up, left]).level ∧
    (checkResponse down up (mk0 START_GAME 2 0 [up, left])).move =
      (mk0 START_GAME 2 0 [up, left]).move ∧
    (∀ i, (checkResponse down up (mk0 START_GAME 2 0 [up, left])).sequence i =
      (mk0 START_GAME 2 0 [up, left]).sequence i)) :=
  ⟨⟨rfl, by decide, by decide⟩,
    incorrect_response_ends_game (mk0 START_GAME 2 0 [up, left]) down up rfl
      (by decide) (by decide)⟩

/-- C4, as the code has it: `checkResponse` never reads `state`.  In a state
with `state == END_GAME`, a response `d != sequence[move]` leaves `state`
(`END_GAME`), `move`, `level` and `sequence` unchanged; a response
`d == sequence[move]` is processed as a correct one: it increments `move`, and
when `move + 1 == level` runs `nextLevel` (`START_GAME`, `level + 1`,
`move == 0`). -/
theorem checkResponse_in_END_GAME (g : ArtemisSays) (d draw : DIRECTIONS)
    (hstate : g.state = END_GAME) :
    (d ≠ g.sequence g.move →
      (checkResponse d draw g).state = END_GAME ∧
      (checkResponse d draw g).move = g.move ∧
      (checkResponse d draw g).level = g.level ∧
      (checkResponse d draw g).sequence = g.sequence) ∧
    (d = g.sequence g.move → g.move + 1 ≠ g.level →
      (checkResponse d draw g).state = END_GAME ∧
      (checkResponse d draw g).move = g.move + 1 ∧
      (checkResponse d draw g).level = g.level ∧
      (checkResponse d draw g).sequence = g.sequence) ∧
    (d = g.sequence g.move → g.move + 1 = g.level →
      (checkResponse d draw g).state = START_GAME ∧
      (checkResponse d draw g).move = 0 ∧
      (checkResponse d draw g).level = g.level + 1 ∧
      (checkResponse d draw g).sequence = Function.update g.sequence g.level draw) := by
  have h := checkResponse_cases d draw g
  rw [hstate] at h
  exact h

/-- C4 as amended, at sequence `[up, left]`, move 0, state `END_GAME`, response
`up`. -/
theorem checkResponse_in_END_GAME_witness :
    (mk0 END_GAME 2 0 [up, left]).state = END_GAME ∧
    (checkResponse up right (mk0 END_GAME 2 0 [up, left])).state = END_GAME ∧
    (checkResponse up right (mk0 END_GAME 2 0 [up, left])).move = 1 :=
  ⟨rfl, ((checkResponse_in_END_GAME (mk0 END_GAME 2 0 [up, left]) up right rfl).2.1
    rfl (by decide)).1,
   ((checkResponse_in_END_GAME (mk0 END_GAME 2 0 [up, left]) up right rfl).2.1
    rfl (by decide)).2.1⟩

/-- C4 as stated fails: with sequence `[up, left]`, the response `down` at
move 0 ends the game; the next call `checkResponse(up)` moves the cursor from 0
to 1, and the call `checkResponse(left)` after it puts the state back to
`START_GAME` at level 3. -/
theorem checkResponse_after_END_GAME_counterexample :
    (checkResponse down up (mk0 START_GAME 2 0 [up, left])).state = END_GAME ∧
    (checkResponse down up (mk0 START_GAME 2 0 [up, left])).move = 0 ∧
    (checkResponse up up (checkResponse down up (mk0 START_GAME 2 0 [up, left]))).move = 1 ∧
    (checkResponse left right (checkResponse up up
      (checkResponse down up (mk0 START_GAME 2 0 [up, left])))).state = START_GAME ∧
    (checkResponse left right (checkResponse up up
      (checkResponse down up (mk0 START_GAME 2 0 [up, left])))).level = 3 := by
  refine ⟨rfl, rfl, rfl, ?_, ?_⟩ <;>
    simp [checkResponse, nextLevel_eq, mk0]

/-- C5, as the code has it: `endGame` leaves `state == COMPLETE` whether or
not it returns, and it returns exactly when `am_hal_pwrctrl_memory_enable`
answers 0 and the deep sleep is left.  No member function reads `state`: after
`endGame`, `checkResponse(d)` keeps `state == COMPLETE` exactly when `d` is a
correct response that does not finish the round, sets `END_GAME` on an
incorrect one, and `nextLevel` always sets `START_GAME`. -/
theorem endGame_then_calls (g : ArtemisSays) (sfeEdge2 : Bool) (memStatus : Nat)
    (wakes : Bool) (d draw : DIRECTIONS) :
    (endGame sfeEdge2 memStatus wakes g).controller.state = COMPLETE ∧
    ((endGame sfeEdge2 memStatus wakes g).isReturned = true ↔
      (memStatus = 0 ∧ wakes = true)) ∧
    ((checkResponse d draw (endGame sfeEdge2 memStatus wakes g).controller).state
        = COMPLETE ↔
      (d = g.sequence g.move ∧ g.move + 1 ≠ g.level)) ∧
    ((checkResponse d draw (endGame sfeEdge2 memStatus wakes g).controller).state
        = END_GAME ↔
      d ≠ g.sequence g.move) ∧
    (nextLevel draw (endGame sfeEdge2 memStatus wakes g).controller).state
      = START_GAME := by
  obtain ⟨hs, hl, hm, hq⟩ := endGame_controller sfeEdge2 memStatus wakes g
  obtain ⟨h1, h2, h3⟩ :=
    checkResponse_cases d draw (endGame sfeEdge2 memStatus wakes g).controller
  simp only [hm, hq, hl, hs] at h1 h2 h3
  refine ⟨hs, by simp [endGame_isReturned], ?_, ?_, by rw [nextLevel_eq]⟩
  · by_cases hd : d = g.sequence g.move
    · by_cases hlast : g.move + 1 = g.level
      · rw [(h3 hd hlast).1]; simp [hlast]
      · rw [(h2 hd hlast).1]; simp [hd, hlast]
    · rw [(h1 hd).1]; simp [hd]
  · by_cases hd : d = g.sequence g.move
    · by_cases hlast : g.move + 1 = g.level
      · rw [(h3 hd hlast).1]; simp [hd]
      · rw [(h2 hd hlast).1]; simp [hd]
    · rw [(h1 hd).1]; simp [hd]

/-- C5 as stated fails: from the level-1 game `[up]`, `endGame` (memory call
answering 0, sleep left) returns with `state == COMPLETE`; a `nextLevel` call
after it sets `state` to `START_GAME`, and the response `down` after it sets
`state` to `END_GAME`. -/
theorem COMPLETE_not_kept_counterexample :
    (endGame false 0 true (mk0 START_GAME 1 0 [up])).isReturned = true ∧
    (endGame false 0 true (mk0 START_GAME 1 0 [up])).controller.state = COMPLETE ∧
    (nextLevel left (endGame false 0 true (mk0 START_GAME 1 0 [up])).controller).state
      = START_GAME ∧
    (checkResponse down left
      (endGame false 0 true (mk0 START_GAME 1 0 [up])).controller).state = END_GAME := by
  refine ⟨rfl, rfl, ?_, rfl⟩
  rw [nextLevel_eq]

/-- C6: in every state reached from `restartGame` by a finite sequence of
`checkResponse`, `nextLevel`, `restartGame` and `endGame` calls,
`0 <= move <= level`. -/
theorem move_le_level_reachable (g0 : ArtemisSays) (draw : DIRECTIONS) (ops : List Op) :
    0 ≤ (run ops (restartGame draw g0)).controller.move ∧
    (run ops (restartGame draw g0)).controller.move ≤
      (run ops (restartGame draw g0)).controller.level := by
  have h0 : (restartGame draw g0).move < (restartGame draw g0).level := by
    simp [restartGame, nextLevel_eq]
  exact ⟨Nat.zero_le _, Nat.le_of_lt (run_cursor_lt ops _ h0)⟩

/-- C7, as the code has it: `setRandomDirection` does not check the capacity,
which is its caller's precondition.  Called with `level < maxSequenceLength`
it stores the draw at `sequence[level]`, inside the array, and increments
`level` by 1, so `level <= maxSequenceLength` afterwards; and in every state
reached from `restartGame` by a run whose calls reach `setRandomDirection`
only with `level < maxSequenceLength`, `level <= maxSequenceLength`. -/
theorem level_le_capacity_when_room (maxSequenceLength : Nat) (g0 g : ArtemisSays)
    (draw r : DIRECTIONS) (ops : List Op) (hcap : 1 ≤ maxSequenceLength)
    (hroom : g.level < maxSequenceLength)
    (hrun : runHasRoom maxSequenceLength ops (restartGame draw g0) = true) :
    (setRandomDirection r g).level = g.level + 1 ∧
    (setRandomDirection r g).sequence g.level = r ∧
    (setRandomDirection r g).level ≤ maxSequenceLength ∧
    (run ops (restartGame draw g0)).controller.level ≤ maxSequenceLength := by
  refine ⟨rfl, by simp [setRandomDirection], by
    show g.level + 1 ≤ maxSequenceLength
    omega, ?_⟩
  apply run_level_le_capacity maxSequenceLength ops _ hrun
  simp only [restartGame, nextLevel_eq]
  exact hcap

/-- C7 as amended, in an array of 100 cells: the level-2 game `[up, left]`
grows to level 3, and the run `restartGame; checkResponse(up)`, which
completes level 1, stays within the array. -/
theorem level_le_capacity_when_room_witness :
    (1 ≤ 100 ∧ (mk0 START_GAME 2 0 [up, left]).level < 100 ∧
      runHasRoom 100 [Op.checkResponse up left]
        (restartGame up (mk0 END_GAME 5 3 [])) = true) ∧
    ((setRandomDirection down (mk0 START_GAME 2 0 [up, left])).level = 2 + 1 ∧
    (setRandomDirection down (mk0 START_GAME 2 0 [up, left])).sequence 2 = down ∧
    (setRandomDirection down (mk0 START_GAME 2 0 [up, left])).level ≤ 100 ∧
    (run [Op.checkResponse up left]
      (restartGame up (mk0 END_GAME 5 3 []))).controller.level ≤ 100) :=
  have hrun : runHasRoom 100 [Op.checkResponse up left]
      (restartGame up (mk0 END_GAME 5 3 [])) = true := by
    simp [runHasRoom, hasRoom, step, restartGame, nextLevel_eq, mk0]
  ⟨⟨by decide, by decide, hrun⟩,
    level_le_capacity_when_room 100 (mk0 END_GAME 5 3 []) (mk0 START_GAME 2 0 [up, left])
      up down [Op.checkResponse up left] (by decide) (by decide) hrun⟩

/-- C7 as stated fails: there is no capacity that bounds the level of the
states reached from `restartGame`, and no level at which `setRandomDirection`
leaves `level` alone; at level 2 in an array of 2 cells holding `[up, left]`
it stores the draw at `sequence[2]` and ends with `level == 3`. -/
theorem level_exceeds_capacity_counterexample :
    (¬ ∃ maxSequenceLength : Nat, ∀ (g0 : ArtemisSays) (draw : DIRECTIONS) (ops : List Op),
      (run ops (restartGame draw g0)).controller.level ≤ maxSequenceLength) ∧
    (¬ ∃ maxSequenceLength : Nat, ∀ (g : ArtemisSays) (draw : DIRECTIONS),
      g.level = maxSequenceLength → (setRandomDirection draw g).level = g.level) ∧
    (setRandomDirection right (mk0 START_GAME 2 0 [up, left])).level = 3 ∧
    (setRandomDirection right (mk0 START_GAME 2 0 [up, left])).sequence 2 = right ∧
    (run [Op.checkResponse up left, Op.checkResponse up left, Op.checkResponse left down]
      (restartGame up (mk0 COMPLETE 0 0 []))).controller.level = 3 := by
  refine ⟨?_, ?_, rfl, by simp [setRandomDirection, mk0], ?_⟩
  · rintro ⟨cap, h⟩
    have hrun := h (mk0 START_GAME 0 0 []) up (List.replicate cap (Op.nextLevel up))
    rw [run_nextLevel_level] at hrun
    simp [restartGame, nextLevel_eq, mk0] at hrun
  · rintro ⟨cap, h⟩
    have hset := h (mk0 START_GAME cap 0 []) up rfl
    simp [setRandomDirection, mk0] at hset
  · simp [run, step, Outcome.controller, checkResponse, restartGame, nextLevel_eq, mk0]

/-- C8: in a state with `state == START_GAME`, `move + 1 == level`,
`level < maxSequenceLength`, the response `d == sequence[move]` runs
`nextLevel`: `level` grows by exactly 1, `move == 0`, `state == START_GAME`,
the entries below the old level are unchanged and the entry at the old level
is the random draw. -/
theorem last_correct_response_runs_nextLevel (maxSequenceLength : Nat) (g : ArtemisSays)
    (d draw : DIRECTIONS) (_hstate : g.state = START_GAME)
    (hmove : g.move + 1 = g.level) (_hcap : g.level < maxSequenceLength)
    (hd : d = g.sequence g.move) :
    checkResponse d draw g =
      nextLevel draw { g with move := g.move + 1,
                              calls := g.calls ++ cue d ++ [Event.clearDisplay] } ∧
    (checkResponse d draw g).level = g.level + 1 ∧
    (checkResponse d draw g).move = 0 ∧
    (checkResponse d draw g).state = START_GAME ∧
    (∀ i, i < g.level → (checkResponse d draw g).sequence i = g.sequence i) ∧
    (checkResponse d draw g).sequence g.level = draw := by
  obtain ⟨hs, hm, hl, hq⟩ := (checkResponse_cases d draw g).2.2 hd hmove
  refine ⟨checkResponse_correct_last d draw g hd hmove, hl, hm, hs, ?_, ?_⟩
  · intro i hi
    rw [hq]
    exact Function.update_noteq (by omega) _ _
  · rw [hq]
    exact Function.update_same _ _ _

/-- C8 at the scenario of the specification: sequence `[up]`, level 1, response
`up`, draw `left`, in an array of 100 cells: the game becomes `[up, left]` at
level 2, move 0. -/
theorem last_correct_response_runs_nextLevel_witness :
    ((mk0 START_GAME 1 0 [up]).state = START_GAME ∧
      (mk0 START_GAME 1 0 [up]).move + 1 = (mk0 START_GAME 1 0 [up]).level ∧
      (mk0 START_GAME 1 0 [up]).level < 100 ∧
      up = (mk0 START_GAME 1 0 [up]).sequence (mk0 START_GAME 1 0 [up]).move) ∧
    ((checkResponse up left (mk0 START_GAME 1 0 [up])).level = 2 ∧
    (checkResponse up left (mk0 START_GAME 1 0 [up])).move = 0 ∧
    (checkResponse up left (mk0 START_GAME 1 0 [up])).state = START_GAME ∧
    (checkResponse up left (mk0 START_GAME 1 0 [up])).sequence 0 = up ∧
    (checkResponse up left (mk0 START_GAME 1 0 [up])).sequence 1 = left) :=
  have h := last_correct_response_runs_nextLevel 100 (mk0 START_GAME 1 0 [up]) up left
    rfl rfl (by decide) rfl
  ⟨⟨rfl, rfl, by decide, rfl⟩,
    h.2.1, h.2.2.1, h.2.2.2.1, h.2.2.2.2.1 0 (by decide), h.2.2.2.2.2⟩

/-- C9: in a state with `state == START_GAME` and `move + 1 < level`, the
response `d == sequence[move]` increments `move` by exactly 1 and leaves
`state`, `level` and every sequence entry unchanged; the calls it makes are the
cue of `d` and `clearDisplay` only: no draw from the random source, no replay
of the sequence. -/
theorem inner_correct_response_frame (g : ArtemisSays) (d draw : DIRECTIONS)
    (hstate : g.state = START_GAME) (hmove : g.move + 1 < g.level)
    (hd : d = g.sequence g.move) :
    (checkResponse d draw g).move = g.move + 1 ∧
    (checkResponse d draw g).state = START_GAME ∧
    (checkResponse d draw g).level = g.level ∧
    (∀ i, (checkResponse d draw g).sequence i = g.sequence i) ∧
    (checkResponse d draw g).calls = g.calls ++ (cue d ++ [Event.clearDisplay]) ∧
    (∀ e, e ∈ cue d ++ [Event.clearDisplay] →
      e ≠ Event.random 1 5 ∧ e ≠ Event.displayYourTurn ∧
        ∀ n, e ≠ Event.displayComputerTurn n) := by
  rw [checkResponse_correct_inner d draw g hd (by omega)]
  exact ⟨rfl, hstate, rfl, fun _ => rfl, by simp, cue_clear_not_replay d⟩

/-- C9 at sequence `[up, left, down]`, level 3, move 0, response `up`. -/
theorem inner_correct_response_frame_witness :
    ((mk0 START_GAME 3 0 [up, left, down]).state = START_GAME ∧
      (mk0 START_GAME 3 0 [up, left, down]).move + 1
        < (mk0 START_GAME 3 0 [up, left, down]).level ∧
      up = (mk0 START_GAME 3 0 [up, left, down]).sequence
        (mk0 START_GAME 3 0 [up, left, down]).move) ∧
    ((checkResponse up right (mk0 START_GAME 3 0 [up, left, down])).move = 1 ∧
    (checkResponse up right (mk0 START_GAME 3 0 [up, left, down])).state = START_GAME ∧
    (checkResponse up right (mk0 START_GAME 3 0 [up, left, down])).level = 3 ∧
    (checkResponse up right (mk0 START_GAME 3 0 [up, left, down])).calls =
      [Event.drawUp, Event.tone 18 1030 350, Event.delay 350, Event.clearDisplay]) :=
  have h := inner_correct_response_frame (mk0 START_GAME 3 0 [up, left, down]) up right
    rfl (by decide) rfl
  ⟨⟨rfl, by decide, rfl⟩, h.1, h.2.1, h.2.2.1, h.2.2.2.2.1⟩

/-- C10: for every level `n` and every sequence contents, `displaySequence`
returns, and the calls it makes are exactly `displayComputerTurn(n)`, then the
cue of `sequence[0]`, ..., the cue of `sequence[n-1]`, one per index in
increasing order, then `displayYourTurn()`, where the cue of `d` is what
`displayDirection(d)` presents; `state`, `level`, `move` and `sequence` are
unchanged. -/
theorem displaySequence_trace (g : ArtemisSays) (n : Nat) (hn : g.level = n) :
    (displaySequence g).calls =
      g.calls ++ ([Event.displayComputerTurn n]
        ++ (List.range n).flatMap (fun i => cue (g.sequence i))
        ++ [Event.displayYourTurn]) ∧
    (∀ (d : DIRECTIONS) (h : ArtemisSays), (displayDirection d h).calls = h.calls ++ cue d) ∧
    (displaySequence g).state = g.state ∧
    (displaySequence g).level = g.level ∧
    (displaySequence g).move = g.move ∧
    (displaySequence g).sequence = g.sequence := by
  subst hn
  rw [displaySequence_eq, cues_eq_flatMap]
  refine ⟨?_, displayDirection_calls, rfl, rfl, rfl, rfl⟩
  simp

/-- C10 at the scenario of the specification: the level-3 sequence
`[up, down, left]` is presented as the cues of up, down and left in that
order, between the two banners. -/
theorem displaySequence_trace_witness :
    (mk0 START_GAME 3 0 [up, down, left]).level = 3 ∧
    (displaySequence (mk0 START_GAME 3 0 [up, down, left])).calls =
      [Event.displayComputerTurn 3,
       Event.drawUp, Event.tone 18 1030 350, Event.delay 350,
       Event.drawDown, Event.tone 18 1450 350, Event.delay 350,
       Event.drawLeft, Event.tone 18 1140 350, Event.delay 350,
       Event.displayYourTurn] :=
  ⟨rfl, (displaySequence_trace (mk0 START_GAME 3 0 [up, down, left]) 3 rfl).1⟩

/-- C11, as the code has it: no member function reads `state`.  In a state
with `state == COMPLETE`, a response `d != sequence[move]` leaves `sequence`,
`level` and `move` unchanged; a response `d == sequence[move]` increments
`move` and, when `move + 1 == level`, runs `nextLevel`; and `nextLevel` stores
the draw at `sequence[level]`, increments `level` and sets `move` to 0. -/
theorem calls_in_COMPLETE (g : ArtemisSays) (d draw : DIRECTIONS)
    (_hstate : g.state = COMPLETE) :
    (d ≠ g.sequence g.move →
      (checkResponse d draw g).sequence = g.sequence ∧
      (checkResponse d draw g).level = g.level ∧
      (checkResponse d draw g).move = g.move) ∧
    (d = g.sequence g.move → g.move + 1 ≠ g.level →
      (checkResponse d draw g).sequence = g.sequence ∧
      (checkResponse d draw g).level = g.level ∧
      (checkResponse d draw g).move = g.move + 1) ∧
    (d = g.sequence g.move → g.move + 1 = g.level →
      (checkResponse d draw g).sequence = Function.update g.sequence g.level draw ∧
      (checkResponse d draw g).level = g.level + 1 ∧
      (checkResponse d draw g).move = 0) ∧
    (nextLevel draw g).sequence = Function.update g.sequence g.level draw ∧
    (nextLevel draw g).level = g.level + 1 ∧
    (nextLevel draw g).move = 0 := by
  obtain ⟨h1, h2, h3⟩ := checkResponse_cases d draw g
  refine ⟨fun h => ?_, fun h hm => ?_, fun h hm => ?_, ?_, ?_, ?_⟩
  · exact ⟨(h1 h).2.2.2, (h1 h).2.2.1, (h1 h).2.1⟩
  · exact ⟨(h2 h hm).2.2.2, (h2 h hm).2.2.1, (h2 h hm).2.1⟩
  · exact ⟨(h3 h hm).2.2.2, (h3 h hm).2.2.1, (h3 h hm).2.1⟩
  · rw [nextLevel_eq]
  · rw [nextLevel_eq]
  · rw [nextLevel_eq]

/-- C11 as amended, at the game `[up, left]`, level 2, move 0, in state
`COMPLETE`: the response `down` changes none of the three, the response `up`
moves the cursor to 1. -/
theorem calls_in_COMPLETE_witness :
    (mk0 COMPLETE 2 0 [up, left]).state = COMPLETE ∧
    ((checkResponse down right (mk0 COMPLETE 2 0 [up, left])).sequence
        = (mk0 COMPLETE 2 0 [up, left]).sequence ∧
      (checkResponse down right (mk0 COMPLETE 2 0 [up, left])).level = 2 ∧
      (checkResponse down right (mk0 COMPLETE 2 0 [up, left])).move = 0) ∧
    (checkResponse up right (mk0 COMPLETE 2 0 [up, left])).move = 1 :=
  ⟨rfl,
    (calls_in_COMPLETE (mk0 COMPLETE 2 0 [up, left]) down right rfl).1 (by decide),
    ((calls_in_COMPLETE (mk0 COMPLETE 2 0 [up, left]) up right rfl).2.1
      rfl (by decide)).2.2⟩

/-- C11 as stated fails: in state `COMPLETE` with the game `[up, left]`,
level 2, move 0, the response `up` moves the cursor from 0 to 1, and
`nextLevel` with draw `down` stores `down` at `sequence[2]`, raises `level` to
3 and leaves `state == START_GAME`. -/
theorem COMPLETE_data_not_frozen_counterexample :
    (mk0 COMPLETE 2 0 [up, left]).state = COMPLETE ∧
    (checkResponse up right (mk0 COMPLETE 2 0 [up, left])).move = 1 ∧
    (mk0 COMPLETE 2 0 [up, left]).sequence 2 = up ∧
    (nextLevel down (mk0 COMPLETE 2 0 [up, left])).sequence 2 = down ∧
    (nextLevel down (mk0 COMPLETE 2 0 [up, left])).level = 3 ∧
    (nextLevel down (mk0 COMPLETE 2 0 [up, left])).state = START_GAME := by
  refine ⟨rfl, rfl, rfl, ?_, ?_, ?_⟩ <;> simp [nextLevel_eq, mk0]

/-- C12: `checkResponse` leaves `level` as it is or raises it by exactly 1,
`nextLevel` raises it by exactly 1, `endGame` and `getState` leave it as it
is; none of them lowers it.  `restartGame` sets it to 1, which lowers it
exactly when it was above 1. -/
theorem level_monotone_between_restarts (g : ArtemisSays) (d draw : DIRECTIONS)
    (sfeEdge2 : Bool) (memStatus : Nat) (wakes : Bool) :
    ((checkResponse d draw g).level = g.level ∨
      (checkResponse d draw g).level = g.level + 1) ∧
    g.level ≤ (checkResponse d draw g).level ∧
    (nextLevel draw g).level = g.level + 1 ∧
    g.level ≤ (nextLevel draw g).level ∧
    (endGame sfeEdge2 memStatus wakes g).controller.level = g.level ∧
    (getState g).2.level = g.level ∧
    (restartGame draw g).level = 1 ∧
    ((restartGame draw g).level < g.level ↔ 1 < g.level) := by
  obtain ⟨h1, h2, h3⟩ := checkResponse_cases d draw g
  have hcheck : (checkResponse d draw g).level = g.level ∨
      (checkResponse d draw g).level = g.level + 1 := by
    by_cases hd : d = g.sequence g.move
    · by_cases hlast : g.move + 1 = g.level
      · exact Or.inr (h3 hd hlast).2.2.1
      · exact Or.inl (h2 hd hlast).2.2.1
    · exact Or.inl (h1 hd).2.2.1
  have hrestart : (restartGame draw g).level = 1 := by
    simp [restartGame, nextLevel_eq]
  refine ⟨hcheck, by omega, by rw [nextLevel_eq], by rw [nextLevel_eq]; simp,
    (endGame_controller sfeEdge2 memStatus wakes g).2.1, rfl, hrestart, by rw [hrestart]⟩

/-- C13: called with `level < maxSequenceLength`, `setRandomDirection` stores
the draw at the old index `level`, increments `level` by exactly 1 and leaves
every other sequence entry, `move` and `state` unchanged; `checkResponse` and
`nextLevel` leave every entry below the level they were called with
unchanged. -/
theorem setRandomDirection_frame (maxSequenceLength : Nat) (g : ArtemisSays)
    (d draw r : DIRECTIONS) (_hroom : g.level < maxSequenceLength) :
    (setRandomDirection r g).sequence g.level = r ∧
    (setRandomDirection r g).level = g.level + 1 ∧
    (∀ i, i ≠ g.level → (setRandomDirection r g).sequence i = g.sequence i) ∧
    (setRandomDirection r g).move = g.move ∧
    (setRandomDirection r g).state = g.state ∧
    (∀ i, i < g.level → (checkResponse d draw g).sequence i = g.sequence i) ∧
    (∀ i, i < g.level → (nextLevel draw g).sequence i = g.sequence i) := by
  obtain ⟨h1, h2, h3⟩ := checkResponse_cases d draw g
  refine ⟨by simp [setRandomDirection], rfl, ?_, rfl, rfl, ?_, ?_⟩
  · intro i hi
    simp [setRandomDirection, Function.update_noteq hi]
  · intro i hi
    by_cases hd : d = g.sequence g.move
    · by_cases hlast : g.move + 1 = g.level
      · rw [(h3 hd hlast).2.2.2]
        exact Function.update_noteq (by omega) _ _
      · rw [(h2 hd hlast).2.2.2]
    · rw [(h1 hd).2.2.2]
  · intro i hi
    rw [nextLevel_eq]
    exact Function.update_noteq (by omega) _ _

/-- C13 at the game `[up, left]`, level 2, draw `down`, in an array of 100
cells. -/
theorem setRandomDirection_frame_witness :
    (mk0 START_GAME 2 1 [up, left]).level < 100 ∧
    (setRandomDirection down (mk0 START_GAME 2 1 [up, left])).sequence 2 = down ∧
    (setRandomDirection down (mk0 START_GAME 2 1 [up, left])).level = 3 ∧
    (setRandomDirection down (mk0 START_GAME 2 1 [up, left])).sequence 0 = up ∧
    (setRandomDirection down (mk0 START_GAME 2 1 [up, left])).sequence 1 = left ∧
    (setRandomDirection down (mk0 START_GAME 2 1 [up, left])).move = 1 ∧
    (checkResponse left right (mk0 START_GAME 2 1 [up, left])).sequence 1 = left :=
  have h := setRandomDirection_frame 100 (mk0 START_GAME 2 1 [up, left]) left right down
    (by decide)
  ⟨by decide, h.1, h.2.1, h.2.2.1 0 (by decide), h.2.2.1 1 (by decide), h.2.2.2.1,
    h.2.2.2.2.2.1 1 (by decide)⟩

/-- C14: `displayDirection` presents up as `drawUp` and a 1030 Hz tone, right
as `drawRight` and 588 Hz, down as `drawDown` and 1450 Hz, left as `drawLeft`
and 1140 Hz, each tone lasting 350 ms on the audio pin and followed by a
delay of 350 ms; the direction determines the tone frequency and the draw
call injectively. -/
theorem displayDirection_cue_table (g : ArtemisSays) :
    callsMade g (displayDirection up g)
      = [Event.drawUp, Event.tone AUDIO_PIN 1030 350, Event.delay 350] ∧
    callsMade g (displayDirection right g)
      = [Event.drawRight, Event.tone AUDIO_PIN 588 350, Event.delay 350] ∧
    callsMade g (displayDirection down g)
      = [Event.drawDown, Event.tone AUDIO_PIN 1450 350, Event.delay 350] ∧
    callsMade g (displayDirection left g)
      = [Event.drawLeft, Event.tone AUDIO_PIN 1140 350, Event.delay 350] ∧
    (∀ d, ∃ frequency, tonesOf (callsMade g (displayDirection d g)) = [(frequency, 350)]) ∧
    (∀ d, delaysOf (callsMade g (displayDirection d g)) = [350]) ∧
    Function.Injective (fun d => tonesOf (callsMade g (displayDirection d g))) ∧
    Function.Injective (fun d => drawsOf (callsMade g (displayDirection d g))) := by
  have hcalls : ∀ d, callsMade g (displayDirection d g) = cue d := fun d =>
    callsMade_of_append g _ _ (displayDirection_calls d g)
  refine ⟨hcalls up, hcalls right, hcalls down, hcalls left, ?_, ?_, ?_, ?_⟩
  · intro d
    rw [hcalls]
    cases d
    · exact ⟨1030, rfl⟩
    · exact ⟨588, rfl⟩
    · exact ⟨1450, rfl⟩
    · exact ⟨1140, rfl⟩
  · intro d
    rw [hcalls]
    cases d <;> rfl
  · intro d1 d2 h
    simp only [hcalls] at h
    cases d1 <;> cases d2 <;> first | rfl | exact absurd h (by decide)
  · intro d1 d2 h
    simp only [hcalls] at h
    cases d1 <;> cases d2 <;> first | rfl | exact absurd h (by decide)

/-- C15: called with `level == n < maxSequenceLength` and draw `r`,
`nextLevel` performs, in this order: the steps of the draw and of the replay,
whose collaborator calls are `random(1, 5)`, `displayComputerTurn(n + 1)`, the
cues of the old `sequence[0]`, ..., `sequence[n-1]` in order, the cue of `r`
and `displayYourTurn()`, and none of which assigns `move` or `state`; then, as
its last two steps, `move = 0` and `state = START_GAME`.  The controller it
leaves is the one of `nextLevel`, whose presentation is that replay. -/
theorem nextLevel_replays_with_new_entry (maxSequenceLength n : Nat) (t : Traced)
    (r : DIRECTIONS) (hn : t.obj.level = n) (_hroom : n < maxSequenceLength) :
    (∃ replay : List Step,
      stepsMade t (Traced.nextLevel r t) =
        replay ++ [Step.writeMove 0, Step.writeState START_GAME] ∧
      callsOf replay =
        Event.random 1 5 ::
          ([Event.displayComputerTurn (n + 1)]
            ++ ((List.range n).flatMap fun i => cue (t.obj.sequence i))
            ++ cue r ++ [Event.displayYourTurn]) ∧
      ∀ s, s ∈ replay → s.assignsMoveOrState = false) ∧
    (Traced.nextLevel r t).obj = nextLevel r t.obj ∧
    callsMade t.obj (nextLevel r t.obj) =
      Event.random 1 5 ::
        ([Event.displayComputerTurn (n + 1)]
          ++ ((List.range n).flatMap fun i => cue (t.obj.sequence i))
          ++ cue r ++ [Event.displayYourTurn]) ∧
    presentation (callsMade t.obj (nextLevel r t.obj)) =
      [Event.displayComputerTurn (n + 1)]
        ++ ((List.range n).flatMap fun i => cue (t.obj.sequence i))
        ++ cue r ++ [Event.displayYourTurn] ∧
    (nextLevel r t.obj).move = 0 ∧
    (nextLevel r t.obj).state = START_GAME := by
  subst hn
  have hcalls : callsMade t.obj (nextLevel r t.obj) =
      Event.random 1 5 ::
        ([Event.displayComputerTurn (t.obj.level + 1)]
          ++ ((List.range t.obj.level).flatMap fun i => cue (t.obj.sequence i))
          ++ cue r ++ [Event.displayYourTurn]) := by
    apply callsMade_of_append
    rw [nextLevel_eq, cues_update]
    simp
  refine ⟨⟨_, stepsMade_of_append t _ _ (traced_nextLevel_steps r t), ?_, ?_⟩,
    by rw [traced_nextLevel_eq], hcalls, ?_, by rw [nextLevel_eq], by rw [nextLevel_eq]⟩
  · rw [callsOf_append, callsOf_append, callsOf_loopSteps, cues_update]
    simp [callsOf]
  · intro s hs
    simp only [List.mem_append, List.mem_cons, List.mem_singleton, List.not_mem_nil,
      or_false] at hs
    rcases hs with ((h | h | h | h | h | h | h) | h) | h
    · subst h; rfl
    · subst h; rfl
    · subst h; rfl
    · subst h; rfl
    · subst h; rfl
    · subst h; rfl
    · subst h; rfl
    · exact loopSteps_assign_free _ _ _ _ h
    · subst h; rfl
  · rw [hcalls]
    have h1 := presentation_cues t.obj.sequence t.obj.level
    have h2 := presentation_cue r
    unfold presentation at h1 h2 ⊢
    rw [List.filter_cons_of_neg (by simp [isPresentation])]
    simp only [List.filter_append, h1, h2]
    rfl

/-- C15 at the game `[up, left]`, level 2, move 1, state `END_GAME`, draw
`down`, in an array of 100 cells: the replay is up, left, down, and the two
assignments are the last two steps. -/
theorem nextLevel_replays_with_new_entry_witness :
    ((Traced.mk (mk0 END_GAME 2 1 [up, left]) []).obj.level = 2 ∧ 2 < 100) ∧
    (∃ replay : List Step,
      stepsMade (Traced.mk (mk0 END_GAME 2 1 [up, left]) [])
          (Traced.nextLevel down (Traced.mk (mk0 END_GAME 2 1 [up, left]) [])) =
        replay ++ [Step.writeMove 0, Step.writeState START_GAME] ∧
      callsOf replay =
        [Event.random 1 5, Event.displayComputerTurn 3,
         Event.drawUp, Event.tone 18 1030 350, Event.delay 350,
         Event.drawLeft, Event.tone 18 1140 350, Event.delay 350,
         Event.drawDown, Event.tone 18 1450 350, Event.delay 350,
         Event.displayYourTurn] ∧
      ∀ s, s ∈ replay → s.assignsMoveOrState = false) ∧
    presentation (callsMade (mk0 END_GAME 2 1 [up, left])
        (nextLevel down (mk0 END_GAME 2 1 [up, left]))) =
      [Event.displayComputerTurn 3,
       Event.drawUp, Event.tone 18 1030 350, Event.delay 350,
       Event.drawLeft, Event.tone 18 1140 350, Event.delay 350,
       Event.drawDown, Event.tone 18 1450 350, Event.delay 350,
       Event.displayYourTurn] :=
  have h := nextLevel_replays_with_new_entry 100 2
    (Traced.mk (mk0 END_GAME 2 1 [up, left]) []) down rfl (by decide)
  ⟨⟨rfl, by decide⟩, h.1, h.2.2.2.1⟩

/-- C16: whatever the state and the direction `d`, the first steps of
`checkResponse(d)` are the three calls of the cue of `d`, and only then does
it read `move` and `sequence[move]` for the comparison; every assignment comes
later still.  On an incorrect response the remaining steps are
`displayReplayScreen()` and `state = END_GAME`, so the calls are exactly the
cue and `displayReplayScreen()`; on a correct response that does not finish
the round they are `move++`, `clearDisplay()` and the test `move == level`, so
the calls are exactly the cue and `clearDisplay()`; on the correct response
that finishes the round the steps of `nextLevel` follow. -/
theorem checkResponse_cue_first (t : Traced) (d draw : DIRECTIONS) :
    (∃ rest : List Step,
      stepsMade t (Traced.checkResponse d draw t) =
        (cue d).map Step.call ++
          (Step.readMove :: Step.readSequence t.obj.move :: rest)) ∧
    (∀ s, s ∈ (cue d).map Step.call → s.isAccess = false) ∧
    (Traced.checkResponse d draw t).obj = checkResponse d draw t.obj ∧
    (callsMade t.obj (checkResponse d draw t.obj)).take (cue d).length = cue d ∧
    (d ≠ t.obj.sequence t.obj.move →
      stepsMade t (Traced.checkResponse d draw t) =
        (cue d).map Step.call ++
          [Step.readMove, Step.readSequence t.obj.move,
           Step.call Event.displayReplayScreen, Step.writeState END_GAME] ∧
      callsMade t.obj (checkResponse d draw t.obj)
        = cue d ++ [Event.displayReplayScreen]) ∧
    (d = t.obj.sequence t.obj.move → t.obj.move + 1 ≠ t.obj.level →
      stepsMade t (Traced.checkResponse d draw t) =
        (cue d).map Step.call ++
          [Step.readMove, Step.readSequence t.obj.move,
           Step.readMove, Step.writeMove (t.obj.move + 1),
           Step.call Event.clearDisplay, Step.readMove, Step.readLevel] ∧
      callsMade t.obj (checkResponse d draw t.obj) = cue d ++ [Event.clearDisplay]) ∧
    (d = t.obj.sequence t.obj.move → t.obj.move + 1 = t.obj.level →
      stepsMade t (Traced.checkResponse d draw t) =
        (cue d).map Step.call ++
          [Step.readMove, Step.readSequence t.obj.move,
           Step.readMove, Step.writeMove (t.obj.move + 1),
           Step.call Event.clearDisplay, Step.readMove, Step.readLevel] ++
          stepsMade
            { obj := { t.obj with move := t.obj.move + 1,
                                  calls := t.obj.calls ++ cue d ++ [Event.clearDisplay] },
              steps := t.steps ++ ((cue d).map Step.call ++
                [Step.readMove, Step.readSequence t.obj.move,
                 Step.readMove, Step.writeMove (t.obj.move + 1),
                 Step.call Event.clearDisplay, Step.readMove, Step.readLevel]) }
            (Traced.nextLevel draw
              { obj := { t.obj with move := t.obj.move + 1,
                                    calls := t.obj.calls ++ cue d ++ [Event.clearDisplay] },
                steps := t.steps ++ ((cue d).map Step.call ++
                  [Step.readMove, Step.readSequence t.obj.move,
                   Step.readMove, Step.writeMove (t.obj.move + 1),
                   Step.call Event.clearDisplay, Step.readMove, Step.readLevel]) })) := by
  have hbad : d ≠ t.obj.sequence t.obj.move →
      stepsMade t (Traced.checkResponse d draw t) =
        (cue d).map Step.call ++
          [Step.readMove, Step.readSequence t.obj.move,
           Step.call Event.displayReplayScreen, Step.writeState END_GAME] ∧
      callsMade t.obj (checkResponse d draw t.obj)
        = cue d ++ [Event.displayReplayScreen] := by
    intro h
    refine ⟨stepsMade_of_append t _ _ (by rw [traced_checkResponse_incorrect d draw t h]),
      callsMade_of_append _ _ _ ?_⟩
    rw [checkResponse_incorrect d draw t.obj h]
    simp
  have hinner : d = t.obj.sequence t.obj.move → t.obj.move + 1 ≠ t.obj.level →
      stepsMade t (Traced.checkResponse d draw t) =
        (cue d).map Step.call ++
          [Step.readMove, Step.readSequence t.obj.move,
           Step.readMove, Step.writeMove (t.obj.move + 1),
           Step.call Event.clearDisplay, Step.readMove, Step.readLevel] ∧
      callsMade t.obj (checkResponse d draw t.obj) = cue d ++ [Event.clearDisplay] := by
    intro h hm
    refine ⟨stepsMade_of_append t _ _
        (by rw [traced_checkResponse_correct_inner d draw t h hm]),
      callsMade_of_append _ _ _ ?_⟩
    rw [checkResponse_correct_inner d draw t.obj h hm]
    simp
  have hlast : d = t.obj.sequence t.obj.move → t.obj.move + 1 = t.obj.level →
      stepsMade t (Traced.checkResponse d draw t) =
        (cue d).map Step.call ++
          [Step.readMove, Step.readSequence t.obj.move,
           Step.readMove, Step.writeMove (t.obj.move + 1),
           Step.call Event.clearDisplay, Step.readMove, Step.readLevel] ++
          stepsMade
            { obj := { t.obj with move := t.obj.move + 1,
                                  calls := t.obj.calls ++ cue d ++ [Event.clearDisplay] },
              steps := t.steps ++ ((cue d).map Step.call ++
                [Step.readMove, Step.readSequence t.obj.move,
                 Step.readMove, Step.writeMove (t.obj.move + 1),
                 Step.call Event.clearDisplay, Step.readMove, Step.readLevel]) }
            (Traced.nextLevel draw
              { obj := { t.obj with move := t.obj.move + 1,
                                    calls := t.obj.calls ++ cue d ++ [Event.clearDisplay] },
                steps := t.steps ++ ((cue d).map Step.call ++
                  [Step.readMove, Step.readSequence t.obj.move,
                   Step.readMove, Step.writeMove (t.obj.move + 1),
                   Step.call Event.clearDisplay, Step.readMove, Step.readLevel]) }) := by
    intro h hm
    rw [traced_checkResponse_correct_last d draw t h hm]
    exact stepsMade_through t _ _ _ _ rfl (traced_nextLevel_steps draw _)
  have hplain_last : d = t.obj.sequence t.obj.move → t.obj.move + 1 = t.obj.level →
      (callsMade t.obj (checkResponse d draw t.obj)).take (cue d).length = cue d := by
    intro h hm
    rw [checkResponse_correct_last d draw t.obj h hm,
      callsMade_through t.obj _ _ (cue d ++ [Event.clearDisplay]) _
        (List.append_assoc _ _ _) (nextLevel_calls draw _),
      List.append_assoc]
    exact List.take_left _ _
  refine ⟨?_, ?_, traced_checkResponse_obj d draw t, ?_, hbad, hinner, hlast⟩
  · by_cases hd : d = t.obj.sequence t.obj.move
    · by_cases hm : t.obj.move + 1 = t.obj.level
      · exact ⟨_, by rw [hlast hd hm, List.append_assoc]; rfl⟩
      · exact ⟨_, (hinner hd hm).1⟩
    · exact ⟨_, (hbad hd).1⟩
  · intro s hs
    obtain ⟨e, _, he⟩ := List.mem_map.mp hs
    subst he
    rfl
  · by_cases hd : d = t.obj.sequence t.obj.move
    · by_cases hm : t.obj.move + 1 = t.obj.level
      · exact hplain_last hd hm
      · rw [(hinner hd hm).2]
        exact List.take_left _ _
    · rw [(hbad hd).2]
      exact List.take_left _ _

/-- C17: in every state reached from `restartGame` by a finite sequence of
calls that reach `setRandomDirection` only with `level < maxSequenceLength`,
`move < level <= maxSequenceLength` when the call is over, so `sequence[move]`
is a cell of the array below `level`.  That cell has been written since the
restart: the run from `restartGame` on a controller `h0` holding anything else
(other cells, other level, move and state) ends the same way, in the same
`state`, `level` and `move`, with the same cells below `level` and the same
`sequence[move]`. -/
theorem cursor_reads_written_cell (maxSequenceLength : Nat) (g0 h0 : ArtemisSays)
    (draw : DIRECTIONS) (ops : List Op) (hcap : 1 ≤ maxSequenceLength)
    (hroom : runHasRoom maxSequenceLength ops (restartGame draw g0) = true) :
    (run ops (restartGame draw g0)).controller.move
      < (run ops (restartGame draw g0)).controller.level ∧
    (run ops (restartGame draw g0)).controller.level ≤ maxSequenceLength ∧
    (run ops (restartGame draw g0)).controller.move < maxSequenceLength ∧
    (run ops (restartGame draw h0)).isReturned
      = (run ops (restartGame draw g0)).isReturned ∧
    (run ops (restartGame draw h0)).controller.state
      = (run ops (restartGame draw g0)).controller.state ∧
    (run ops (restartGame draw h0)).controller.level
      = (run ops (restartGame draw g0)).controller.level ∧
    (run ops (restartGame draw h0)).controller.move
      = (run ops (restartGame draw g0)).controller.move ∧
    (∀ i, i < (run ops (restartGame draw g0)).controller.level →
      (run ops (restartGame draw h0)).controller.sequence i
        = (run ops (restartGame draw g0)).controller.sequence i) ∧
    (run ops (restartGame draw h0)).controller.sequence
        (run ops (restartGame draw h0)).controller.move
      = (run ops (restartGame draw g0)).controller.sequence
        (run ops (restartGame draw g0)).controller.move := by
  have h0lt : (restartGame draw g0).move < (restartGame draw g0).level := by
    simp [restartGame, nextLevel_eq]
  have h0le : (restartGame draw g0).level ≤ maxSequenceLength := by
    simp only [restartGame, nextLevel_eq]
    exact hcap
  have h0ag : agreeBelowLevel (restartGame draw g0) (restartGame draw h0) := by
    obtain ⟨a1, a2, a3, a4⟩ := restartGame_fields draw g0
    obtain ⟨b1, b2, b3, b4⟩ := restartGame_fields draw h0
    unfold agreeBelowLevel
    rw [a1, a2, a3, a4, b1, b2, b3, b4]
    exact ⟨rfl, rfl, rfl,
      update_agree _ _ 0 _ (fun i hi => absurd hi (Nat.not_lt_zero i))⟩
  have hlt := run_cursor_lt ops _ h0lt
  have hle := run_level_le_capacity maxSequenceLength ops _ hroom h0le
  obtain ⟨hret, hs, hl, hm, hq⟩ := run_agreeBelowLevel ops _ _ h0lt h0ag
  refine ⟨hlt, hle, by omega, hret, hs, hl, hm, hq, ?_⟩
  rw [hm]
  exact hq _ hlt

/-- C17 in an array of 100 cells, for the run `restartGame` (draw up),
`checkResponse(up)` (draw left), `checkResponse(up)`, started from two
unrelated controllers: the cursor ends at 1 below level 2, and both runs read
the same `sequence[1]`. -/
theorem cursor_reads_written_cell_witness :
    (1 ≤ 100 ∧
      runHasRoom 100 [Op.checkResponse up left, Op.checkResponse up right]
        (restartGame up (mk0 END_GAME 5 3 [left, left, left])) = true) ∧
    ((run [Op.checkResponse up left, Op.checkResponse up right]
        (restartGame up (mk0 END_GAME 5 3 [left, left, left]))).controller.move
      < (run [Op.checkResponse up left, Op.checkResponse up right]
        (restartGame up (mk0 END_GAME 5 3 [left, left, left]))).controller.level ∧
    (run [Op.checkResponse up left, Op.checkResponse up right]
        (restartGame up (mk0 COMPLETE 0 7 [down, down]))).controller.sequence
        (run [Op.checkResponse up left, Op.checkResponse up right]
          (restartGame up (mk0 COMPLETE 0 7 [down, down]))).controller.move
      = (run [Op.checkResponse up left, Op.checkResponse up right]
        (restartGame up (mk0 END_GAME 5 3 [left, left, left]))).controller.sequence
        (run [Op.checkResponse up left, Op.checkResponse up right]
          (restartGame up (mk0 END_GAME 5 3 [left, left, left]))).controller.move) :=
  have hroom : runHasRoom 100 [Op.checkResponse up left, Op.checkResponse up right]
      (restartGame up (mk0 END_GAME 5 3 [left, left, left])) = true := by
    simp [runHasRoom, hasRoom, step, checkResponse, restartGame, nextLevel_eq, mk0]
  have h := cursor_reads_written_cell 100 (mk0 END_GAME 5 3 [left, left, left])
    (mk0 COMPLETE 0 7 [down, down]) up
    [Op.checkResponse up left, Op.checkResponse up right] (by decide) hroom
  ⟨⟨by decide, hroom⟩, h.1, h.2.2.2.2.2.2.2.2⟩

/-- C18: `endGame` changes only `state`: whether or not it returns, `level`,
`move` and every sequence entry are as before and `state == COMPLETE`;
`getState` returns `state` and leaves the controller as it is. -/
theorem endGame_changes_only_state (g : ArtemisSays) (sfeEdge2 : Bool) (memStatus : Nat)
    (wakes : Bool) :
    (endGame sfeEdge2 memStatus wakes g).controller.state = COMPLETE ∧
    (endGame sfeEdge2 memStatus wakes g).controller.level = g.level ∧
    (endGame sfeEdge2 memStatus wakes g).controller.move = g.move ∧
    (∀ i, (endGame sfeEdge2 memStatus wakes g).controller.sequence i = g.sequence i) ∧
    (getState g).1 = g.state ∧
    (getState g).2 = g := by
  obtain ⟨hs, hl, hm, hq⟩ := endGame_controller sfeEdge2 memStatus wakes g
  exact ⟨hs, hl, hm, fun i => by rw [hq], rfl, rfl⟩

end ArtemisSays
